import Mathlib

/-! # redis-udf: the RedisClient protocol engine

A shallow embedding of `src/redis_client.cpp` (command encoding, the
socket framing primitives `read_line` / `read_n`, the reply decoders and the
client facade) and of the `hmset` UDF of `src/redis_udf.cpp`, followed by
theorems about it.

Modelling conventions

* A C++ `std::string` is a `List Char`; one `Char` stands for one C++ `char`.
* `int_type` and `ssize_t` (`long`) are `Int`; the range of `long` is made
  explicit where the source can leave it.
* A C++ exception of the four `redis_error` kinds is `Outcome.raise`; anything
  outside that taxonomy (failed `assert`, failed allocation, out-of-bounds
  write, arithmetic outside the range of `long`) is `Outcome.fault`.
* The size of the largest array `new char[]` can provide is a parameter,
  `alloc_limit`, of `read_n` and of everything that calls it; a larger request
  is `std::bad_alloc`.
* The TCP socket is an explicit state: the bytes the peer will still send,
  how many of them have already arrived, and a schedule saying how many more
  arrive before each later `recv`.  After the last pending byte the peer has
  closed the connection, so `recv` returns 0.  `recv` is assumed not to fail
  with an error other than `EINTR` (which the source retries).
-/

namespace RedisUdf

/-! ## Types of `redis_client.h` -/

abbrev string_type := List Char
abbrev string_vector := List string_type
abbrev int_type := Int

/-- The four exception classes derived from `redis_error`, with their message. -/
inductive redis_error where
  | connection_error (err : string_type)
  | protocol_error (err : string_type)
  | key_error (err : string_type)
  | value_error (err : string_type)
deriving DecidableEq, Repr

/-- Ways a call can end outside the `redis_error` taxonomy. -/
inductive Fault where
  | assertion_failed   -- a failed `assert`
  | bad_alloc          -- a failed `new char[n + 1]`: negative size, or more than can be allocated
  | out_of_bounds      -- a write outside the allocated buffer
  | signed_overflow    -- arithmetic on `long` leaving its range
  | out_of_fuel        -- the loop bound of the model ran out (never reached: `read_line_total`, `read_n_total`)
deriving DecidableEq, Repr

/-- Result of a call: a value, a thrown `redis_error`, or a fault. -/
inductive Outcome (α : Type) where
  | ok (a : α)
  | raise (e : redis_error)
  | fault (f : Fault)
deriving DecidableEq, Repr

/-! ## Constants (redis_client.cpp, lines 17-25) -/

def status_reply_ok : string_type := "OK".toList
def prefix_status_reply_error : string_type := "-ERR ".toList
def prefix_status_reply_value : Char := '+'
def prefix_single_bulk_reply : Char := '$'
def prefix_multi_bulk_reply : Char := '*'
def prefix_int_reply : Char := ':'
def missing_value : string_type := "**nonexistent-key**".toList
def whitespace : string_type := [' ', '\x0c', '\n', '\r', '\t', '\x0b']
def CRLF : string_type := ['\r', '\n']

/-- The NUL character that terminates a C string. -/
def NUL : Char := '\x00'

def LONG_MIN : Int := -9223372036854775808
def LONG_MAX : Int := 9223372036854775807

/-! ## The socket -/

/-- State of the connected TCP socket.
`pending` are the bytes the peer sends from now on (it closes after them),
`ready` is how many of them already sit in the receive buffer, `arrivals`
says how many more arrive before each following `recv` (all of them once the
schedule is used up), `written` are the bytes written so far, and
`write_error` is the `strerror` text when `anetWrite` fails. -/
structure Socket where
  pending : string_type
  ready : Nat
  arrivals : List Nat
  written : string_type
  write_error : Option string_type
deriving DecidableEq, Repr

/-- Bytes arriving while `recv` is entered: a blocking `recv` returns once at
least one byte is there or the peer has closed. -/
def Socket.wait (s : Socket) : Socket :=
  let more := match s.arrivals with
    | [] => s.pending.length
    | k :: _ => k
  { s with ready := min (max (s.ready + more) 1) s.pending.length, arrivals := s.arrivals.tail }

/-- Model of `recv(socket, buffer, len, flags)`: returns the bytes stored in `buffer`
(none when the peer has closed) and the socket afterwards; with `peek`
(`MSG_PEEK`) nothing is consumed. -/
def recv (s : Socket) (len : Nat) (peek : Bool) : string_type × Socket :=
  let s1 := s.wait
  let chunk := s1.pending.take (min len s1.ready)
  if peek then (chunk, s1)
  else (chunk, { s1 with pending := s1.pending.drop chunk.length, ready := s1.ready - chunk.length })

/-- Model of `anetWrite` as used by `send_` (lines 271-279). -/
def send_ (s : Socket) (msg : string_type) : Outcome Socket :=
  match s.write_error with
  | some e => Outcome.raise (redis_error.connection_error e)
  | none => Outcome.ok { s with written := s.written ++ msg }

/-! ## String helpers -/

/-- Function `isspace` in the "C" locale, used by `operator>>` to skip leading blanks. -/
def isspace (c : Char) : Bool := c ∈ whitespace

def isdigit (c : Char) : Bool := decide ('0' ≤ c) && decide (c ≤ '9')

/-- Parsing loop of `operator>>(long &)`: accumulate decimal digits. -/
def digits_value (ds : string_type) : Nat :=
  ds.foldl (fun a c => 10 * a + (c.toNat - 48)) 0

/-- Function `value_from_string<int_type>` (lines 27-38): `istringstream >> long`.
Leading white space is skipped, then an optional sign and the longest run of
decimal digits are read; no digit, or a value outside `long`, sets `failbit`. -/
def value_from_string (data : string_type) : Outcome int_type :=
  let s := data.dropWhile isspace
  let neg := s.head? = some '-'
  let body := if s.head? = some '-' ∨ s.head? = some '+' then s.tail else s
  let ds := body.takeWhile isdigit
  if ds = [] then Outcome.raise (redis_error.value_error "invalid number".toList)
  else
    let v : Int := if neg then -(digits_value ds : Int) else (digits_value ds : Int)
    if v < LONG_MIN ∨ LONG_MAX < v then
      Outcome.raise (redis_error.value_error "invalid number".toList)
    else Outcome.ok v

/-- Method `std::string::find_last_not_of(ws)`: the last index whose character is not
in `ws`; `none` is `npos`. -/
def find_last_not_of : string_type → string_type → Option Nat
  | [], _ => none
  | c :: cs, ws =>
    match find_last_not_of cs ws with
    | some pos => some (pos + 1)
    | none => if c ∈ ws then none else some 0

/-- Function `rtrim` (lines 40-45): `str.erase(pos + 1)`, where `npos + 1` wraps to 0. -/
def rtrim (str ws : string_type) : string_type :=
  match find_last_not_of str ws with
  | some pos => str.take (pos + 1)
  | none => str.take 0

/-- Function `memchr(buffer, c, len)` over the received bytes: offset of the first `c`. -/
def memchr : string_type → Char → Option Nat
  | [], _ => none
  | b :: bs, c => if b = c then some 0 else (memchr bs c).map (· + 1)

/-- Constructor `std::string(const char *)`: the bytes before the first NUL. -/
def c_str (buffer : string_type) : string_type := buffer.takeWhile (· ≠ NUL)

/-! ## makecmd (lines 47-86) -/

/-- Constructor `makecmd(initial, finalize)`. -/
def makecmd (initial : string_type) (finalize : Bool) : string_type :=
  if finalize then initial else initial ++ [' ']

/-- The scalar `operator<<`: `buffer_ << " " << datum`. -/
def makecmd.put (buffer_ : string_type) (datum : string_type) : string_type :=
  buffer_ ++ [' '] ++ datum

/-- Loop of the vector `operator<<`, from index `i` with `n = data.size()`. -/
def makecmd.put_loop (data : string_vector) (n : Nat) : Nat → Nat → string_type → string_type
  | 0, _, buffer_ => buffer_
  | k + 1, i, buffer_ =>
    let b := buffer_ ++ data.getD i []
    makecmd.put_loop data n k (i + 1) (if i + 1 < n then b ++ [' '] else b)

/-- The vector `operator<<`. -/
def makecmd.put_vector (buffer_ : string_type) (data : string_vector) : string_type :=
  makecmd.put_loop data data.length data.length 0 (buffer_ ++ [' '])

/-- Conversion `operator std::string`: append CRLF. -/
def makecmd.str (buffer_ : string_type) : string_type := buffer_ ++ CRLF

/-! ## Framing primitives -/

def buffer_size : Nat := 64

/-- The `while` loop of `read_line` (lines 309-345).  `total_bytes_read` is
carried as in the source, which never assigns it after its initialisation. -/
def read_line_loop (max_size : Int) :
    Nat → Socket → Int → Bool → string_type → Outcome (string_type × Socket)
  | 0, _, _, _, _ => Outcome.fault Fault.out_of_fuel
  | fuel + 1, s, total_bytes_read, found_delimiter, oss =>
    if total_bytes_read < max_size ∧ found_delimiter = false then
      let peeked := recv s buffer_size true
      if peeked.1.length = 0 then
        Outcome.raise (redis_error.connection_error "connection was closed".toList)
      else
        match memchr peeked.1 '\n' with
        | some eol =>
          let to_read := eol + 1
          read_line_loop max_size fuel (recv peeked.2 to_read false).2 total_bytes_read true
            (oss ++ peeked.1.take to_read)
        | none =>
          let to_read := peeked.1.length
          read_line_loop max_size fuel (recv peeked.2 to_read false).2 total_bytes_read false
            (oss ++ peeked.1)
    else Outcome.ok (rtrim oss CRLF, s)

/-- Method `RedisClient::read_line` (lines 295-351). -/
def read_line (s : Socket) (max_size : Int) : Outcome (string_type × Socket) :=
  if max_size > 0 then
    read_line_loop max_size (s.pending.length + 2) s 0 false []
  else Outcome.fault Fault.assertion_failed

/-- The `while (bytes_read != n)` loop of `read_n`; `bytes_read` is `buffer.length`. -/
def read_n_loop (n : Nat) : Nat → Socket → string_type → Outcome (string_type × Socket)
  | 0, _, _ => Outcome.fault Fault.out_of_fuel
  | fuel + 1, s, buffer =>
    if buffer.length ≠ n then
      let r := recv s (n - buffer.length) false
      if r.1.length = 0 then
        Outcome.raise (redis_error.connection_error "connection was closed".toList)
      else read_n_loop n fuel r.2 (buffer ++ r.1)
    else Outcome.ok (c_str buffer, s)

/-- Method `RedisClient::read_n` (lines 353-377).  The parameter `alloc_limit` is
not an argument of the source function: it is the size of the largest array
`new char[]` can provide in the process.  `new char[n + 1]` throws
`std::bad_alloc`, which is no `redis_error`, for a negative size and for a size
above that limit; `n + 1` itself leaves the range of `long` at `LONG_MAX`. -/
def read_n (alloc_limit : Nat) (s : Socket) (n : Int) : Outcome (string_type × Socket) :=
  if LONG_MAX < n + 1 then Outcome.fault Fault.signed_overflow
  else if n + 1 < 0 then Outcome.fault Fault.bad_alloc
  else if (alloc_limit : Int) < n + 1 then Outcome.fault Fault.bad_alloc
  else if n < 0 then Outcome.fault Fault.out_of_bounds
  else read_n_loop n.toNat (n.toNat + 1) s []

/-! ## Reply decoders -/

/-- Default `max_size` of `read_line` (redis_client.h, line 67). -/
def default_max_size : Int := 2048

/-- Method `std::string::operator[](0)`: the first character, or NUL for `size() == 0`. -/
def front (line : string_type) : Char := line.headD NUL

/-- Method `RedisClient::recv_bulk_reply_(char)` (lines 281-293). -/
def recv_bulk_reply_int (s : Socket) (pfx : Char) : Outcome (int_type × Socket) :=
  match read_line s default_max_size with
  | Outcome.ok (line, s1) =>
    if front line ≠ pfx then
      Outcome.raise (redis_error.protocol_error "unexpected prefix for bulk reply".toList)
    else
      match value_from_string (line.drop 1) with
      | Outcome.ok v => Outcome.ok (v, s1)
      | Outcome.raise e => Outcome.raise e
      | Outcome.fault f => Outcome.fault f
  | Outcome.raise e => Outcome.raise e
  | Outcome.fault f => Outcome.fault f

/-- Method `RedisClient::recv_single_line_reply_` (lines 210-227). -/
def recv_single_line_reply_ (s : Socket) : Outcome (string_type × Socket) :=
  match read_line s default_max_size with
  | Outcome.ok (line, s1) =>
    if line = [] then
      Outcome.raise (redis_error.protocol_error "empty single line reply".toList)
    else if prefix_status_reply_error.isPrefixOf line then
      let error_msg := line.drop prefix_status_reply_error.length
      if error_msg = [] then
        Outcome.raise (redis_error.protocol_error "unknown error".toList)
      else Outcome.raise (redis_error.protocol_error error_msg)
    else if front line ≠ prefix_status_reply_value then
      Outcome.raise (redis_error.protocol_error "unexpected prefix for status reply".toList)
    else Outcome.ok (line.drop 1, s1)
  | Outcome.raise e => Outcome.raise e
  | Outcome.fault f => Outcome.fault f

/-- Method `RedisClient::recv_ok_reply_` (lines 204-208). -/
def recv_ok_reply_ (s : Socket) : Outcome Socket :=
  match recv_single_line_reply_ s with
  | Outcome.ok (line, s1) =>
    if line ≠ status_reply_ok then
      Outcome.raise (redis_error.protocol_error "expected OK response".toList)
    else Outcome.ok s1
  | Outcome.raise e => Outcome.raise e
  | Outcome.fault f => Outcome.fault f

/-- Method `RedisClient::recv_bulk_reply_()` (lines 229-249). -/
def recv_bulk_reply_ (alloc_limit : Nat) (s : Socket) : Outcome (string_type × Socket) :=
  match recv_bulk_reply_int s prefix_single_bulk_reply with
  | Outcome.ok (length, s1) =>
    if length = -1 then Outcome.ok (missing_value, s1)
    else if LONG_MAX < length + 2 then Outcome.fault Fault.signed_overflow
    else
      let real_length := length + 2
      match read_n alloc_limit s1 real_length with
      | Outcome.ok (data, s2) =>
        if data = [] then
          Outcome.raise (redis_error.protocol_error "invalid bulk reply data; empty".toList)
        else if (data.length : Int) ≠ real_length then
          Outcome.raise (redis_error.protocol_error
            "invalid bulk reply data; data of unexpected length".toList)
        else Outcome.ok (data.take (data.length - 2), s2)
      | Outcome.raise e => Outcome.raise e
      | Outcome.fault f => Outcome.fault f
  | Outcome.raise e => Outcome.raise e
  | Outcome.fault f => Outcome.fault f

/-- The `for` loop of `recv_multi_bulk_reply_` with `k` iterations left.  The
vector `out` is updated in place, so it is returned also when a bulk reply
throws. -/
def recv_multi_bulk_loop (alloc_limit : Nat) : Nat → Socket → string_vector → string_vector × Outcome Socket
  | 0, s, out => (out, Outcome.ok s)
  | k + 1, s, out =>
    match recv_bulk_reply_ alloc_limit s with
    | Outcome.ok (ret, s1) => recv_multi_bulk_loop alloc_limit k s1 (out ++ [ret])
    | Outcome.raise e => (out, Outcome.raise e)
    | Outcome.fault f => (out, Outcome.fault f)

/-- Method `RedisClient::recv_multi_bulk_reply_` (lines 251-269): the vector `out`
afterwards, and the returned count with the socket. -/
def recv_multi_bulk_reply_ (alloc_limit : Nat) (s : Socket) (out : string_vector) :
    string_vector × Outcome (int_type × Socket) :=
  match recv_bulk_reply_int s prefix_multi_bulk_reply with
  | Outcome.ok (length, s1) =>
    if length = -1 then (out, Outcome.raise (redis_error.key_error "no such key".toList))
    else
      match recv_multi_bulk_loop alloc_limit length.toNat s1 out with
      | (out1, Outcome.ok s2) => (out1, Outcome.ok (length, s2))
      | (out1, Outcome.raise e) => (out1, Outcome.raise e)
      | (out1, Outcome.fault f) => (out1, Outcome.fault f)
  | Outcome.raise e => (out, Outcome.raise e)
  | Outcome.fault f => (out, Outcome.fault f)

/-! ## Client facade -/

/-- Method `RedisClient::set` (lines 145-149). -/
def set (s : Socket) (key value : string_type) : Outcome Socket :=
  match send_ s (makecmd.str (makecmd.put (makecmd.put (makecmd "SET".toList false) key) value)) with
  | Outcome.ok s1 => recv_ok_reply_ s1
  | Outcome.raise e => Outcome.raise e
  | Outcome.fault f => Outcome.fault f

/-- Method `RedisClient::get` (lines 150-153). -/
def get (alloc_limit : Nat) (s : Socket) (key : string_type) : Outcome (string_type × Socket) :=
  match send_ s (makecmd.str (makecmd.put (makecmd "GET".toList false) key)) with
  | Outcome.ok s1 => recv_bulk_reply_ alloc_limit s1
  | Outcome.raise e => Outcome.raise e
  | Outcome.fault f => Outcome.fault f

/-- Method `RedisClient::auth` (lines 139-143). -/
def auth (s : Socket) (pass : string_type) : Outcome Socket :=
  match send_ s (makecmd.str (makecmd.put (makecmd "AUTH".toList false) pass)) with
  | Outcome.ok s1 => recv_ok_reply_ s1
  | Outcome.raise e => Outcome.raise e
  | Outcome.fault f => Outcome.fault f

/-- Method `RedisClient::hget` (lines 161-164). -/
def hget (alloc_limit : Nat) (s : Socket) (key field : string_type) : Outcome (string_type × Socket) :=
  match send_ s (makecmd.str (makecmd.put (makecmd.put (makecmd "HGET".toList false) key) field)) with
  | Outcome.ok s1 => recv_bulk_reply_ alloc_limit s1
  | Outcome.raise e => Outcome.raise e
  | Outcome.fault f => Outcome.fault f

/-- Method `RedisClient::getset` (lines 199-202). -/
def getset (alloc_limit : Nat) (s : Socket) (key value : string_type) : Outcome (string_type × Socket) :=
  match send_ s (makecmd.str (makecmd.put (makecmd.put (makecmd "GETSET".toList false) key) value)) with
  | Outcome.ok s1 => recv_bulk_reply_ alloc_limit s1
  | Outcome.raise e => Outcome.raise e
  | Outcome.fault f => Outcome.fault f

/-- Method `RedisClient::hset` (lines 155-159). -/
def hset (s : Socket) (key field value : string_type) : Outcome Socket :=
  match send_ s (makecmd.str
      (makecmd.put (makecmd.put (makecmd.put (makecmd "HSET".toList false) key) field) value)) with
  | Outcome.ok s1 =>
    match recv_bulk_reply_int s1 prefix_int_reply with
    | Outcome.ok (_, s2) => Outcome.ok s2
    | Outcome.raise e => Outcome.raise e
    | Outcome.fault f => Outcome.fault f
  | Outcome.raise e => Outcome.raise e
  | Outcome.fault f => Outcome.fault f

/-- Method `RedisClient::del` (lines 166-169). -/
def del (s : Socket) (key : string_type) : Outcome Socket :=
  match send_ s (makecmd.str (makecmd.put (makecmd "DEL".toList false) key)) with
  | Outcome.ok s1 =>
    match recv_bulk_reply_int s1 prefix_int_reply with
    | Outcome.ok (_, s2) => Outcome.ok s2
    | Outcome.raise e => Outcome.raise e
    | Outcome.fault f => Outcome.fault f
  | Outcome.raise e => Outcome.raise e
  | Outcome.fault f => Outcome.fault f

/-- The socket as the `while` loop of `read_line` leaves it, also when the loop
throws: the steps of `read_line_loop`, keeping only the socket. -/
def read_line_loop_socket (max_size : Int) : Nat → Socket → Int → Bool → Socket
  | 0, s, _, _ => s
  | fuel + 1, s, total_bytes_read, found_delimiter =>
    if total_bytes_read < max_size ∧ found_delimiter = false then
      let peeked := recv s buffer_size true
      if peeked.1.length = 0 then peeked.2
      else
        match memchr peeked.1 '\n' with
        | some eol =>
          read_line_loop_socket max_size fuel (recv peeked.2 (eol + 1) false).2
            total_bytes_read true
        | none =>
          read_line_loop_socket max_size fuel (recv peeked.2 peeked.1.length false).2
            total_bytes_read false
    else s

/-- The socket after a call of `read_line`, whatever its outcome. -/
def read_line_socket (s : Socket) (max_size : Int) : Socket :=
  if max_size > 0 then read_line_loop_socket max_size (s.pending.length + 2) s 0 false else s

/-- The `for` loop of `RedisClient::hmset` (lines 187-189) from index `i`:
`maker << fields[i] << values[i]`. -/
def hmset_loop (fields values : string_vector) : Nat → Nat → string_type → string_type
  | 0, _, maker => maker
  | k + 1, i, maker =>
    hmset_loop fields values k (i + 1)
      (makecmd.put (makecmd.put maker (fields.getD i [])) (values.getD i []))

/-- Method `RedisClient::hmset` (lines 181-192): the connection as the call
leaves it, and the outcome.  The reply is decoded by one `read_line`, so after
a failed decode the socket is the one `read_line` leaves. -/
def hmset (s : Socket) (key : string_type) (fields values : string_vector) :
    Socket × Outcome Unit :=
  let maker := makecmd.put (makecmd "HMSET".toList false) key
  if fields.length ≠ values.length ∨ fields.length ≤ 0 then
    (s, Outcome.raise (redis_error.protocol_error "invalid arguments".toList))
  else
    match send_ s (makecmd.str (hmset_loop fields values fields.length 0 maker)) with
    | Outcome.ok s1 =>
      match recv_ok_reply_ s1 with
      | Outcome.ok s2 => (s2, Outcome.ok ())
      | Outcome.raise e => (read_line_socket s1 default_max_size, Outcome.raise e)
      | Outcome.fault f => (read_line_socket s1 default_max_size, Outcome.fault f)
    | Outcome.raise e => (s, Outcome.raise e)
    | Outcome.fault f => (s, Outcome.fault f)

/-- Method `RedisClient::hmget` (lines 194-197): the vector `out` afterwards and
the outcome. -/
def hmget (alloc_limit : Nat) (s : Socket) (key : string_type) (fields out : string_vector) :
    string_vector × Outcome Socket :=
  match send_ s (makecmd.str
      (makecmd.put_vector (makecmd.put (makecmd "HMGET".toList false) key) fields)) with
  | Outcome.ok s1 =>
    match recv_multi_bulk_reply_ alloc_limit s1 out with
    | (out1, Outcome.ok (_, s2)) => (out1, Outcome.ok s2)
    | (out1, Outcome.raise e) => (out1, Outcome.raise e)
    | (out1, Outcome.fault f) => (out1, Outcome.fault f)
  | Outcome.raise e => (out, Outcome.raise e)
  | Outcome.fault f => (out, Outcome.fault f)

/-! ## The hmset UDF (redis_udf.cpp, lines 258-284) -/

/-- Conversion `redis_error::operator std::string`: the message. -/
def redis_error.what : redis_error → string_type
  | redis_error.connection_error err => err
  | redis_error.protocol_error err => err
  | redis_error.key_error err => err
  | redis_error.value_error err => err

/-- The `for` loop of the UDF `hmset` (lines 263-272) from index `i`: arguments
at even index go to `values`, the others to `fields`.  Each `args->args[i]` is
modelled by the C string it points to. -/
def udf_hmset_loop (args : List string_type) :
    Nat → Nat → string_vector → string_vector → string_vector × string_vector
  | 0, _, fields, values => (fields, values)
  | k + 1, i, fields, values =>
    if i % 2 = 0 then udf_hmset_loop args k (i + 1) fields (values ++ [args.getD i []])
    else udf_hmset_loop args k (i + 1) (fields ++ [args.getD i []]) values

/-- The UDF `hmset` on the connection of the client singleton, taken as already
opened: the connection afterwards and the text put in `result` (`SUCCESS`, or
the message of the caught `redis_error`, copied as a C string). -/
def udf_hmset (s : Socket) (args : List string_type) : Socket × Outcome string_type :=
  let fv := udf_hmset_loop args (args.length - 1) 1 [] []
  match hmset s (args.getD 0 []) fv.1 fv.2 with
  | (s1, Outcome.ok _) => (s1, Outcome.ok "SUCCESS".toList)
  | (s1, Outcome.raise e) => (s1, Outcome.ok (c_str e.what))
  | (s1, Outcome.fault f) => (s1, Outcome.fault f)

/-! ## Wire encodings used to state the claims -/

/-- Decimal text of an integer, as the server prints lengths and counts. -/
def decimal (n : Int) : string_type :=
  if n < 0 then '-' :: Nat.toDigits 10 n.natAbs else Nat.toDigits 10 n.toNat

/-- Wire form of one bulk reply with payload `p`. -/
def bulk_encoding (p : string_type) : string_type :=
  '$' :: decimal p.length ++ CRLF ++ p ++ CRLF

/-- Wire form of a multi-bulk reply with the payloads `ps`. -/
def multi_bulk_encoding (ps : string_vector) : string_type :=
  '*' :: decimal ps.length ++ CRLF ++ (ps.map bulk_encoding).flatten

/-- The space-separated words of a text; `cur` is the word being read.  Empty
words, as between two adjacent spaces, are dropped. -/
def words_from (cur : string_type) : string_type → List string_type
  | [] => if cur = [] then [] else [cur]
  | c :: cs =>
    if c = ' ' then (if cur = [] then words_from [] cs else cur :: words_from [] cs)
    else words_from (cur ++ [c]) cs

/-- The space-separated words of a request line. -/
def words (line : string_type) : List string_type := words_from [] line

/-- The sequence `f1, v1, f2, v2, ...` of two sequences. -/
def interleave : string_vector → string_vector → string_vector
  | f :: fs, v :: vs => f :: v :: interleave fs vs
  | _, _ => []

/-- A request argument the inline encoding can carry: not empty and without
white space. -/
def plain_word (w : string_type) : Prop := w ≠ [] ∧ ∀ c ∈ w, isspace c = false

/-- The bulk decoder, called again and again from socket `s`, returns the
elements `ps` one after the other and leaves the socket `s2`. -/
def decodes (alloc_limit : Nat) : Socket → string_vector → Socket → Prop
  | s, [], s2 => s = s2
  | s, p :: ps, s2 => ∃ s1, recv_bulk_reply_ alloc_limit s = Outcome.ok (p, s1) ∧ decodes alloc_limit s1 ps s2

/-! ## Lemmas: decimal text -/

theorem digitChar_spec : ∀ d, d < 10 →
    isdigit (Nat.digitChar d) = true ∧ (Nat.digitChar d).toNat - 48 = d := by
  decide

theorem isdigit_facts (c : Char) (h : isdigit c = true) :
    isspace c = false ∧ c ≠ '-' ∧ c ≠ '+' ∧ c ≠ '\n' ∧ c ≠ '\r' ∧ c ≠ NUL := by
  have h48 : 48 ≤ c.toNat ∧ c.toNat ≤ 57 := by
    simp only [isdigit, Bool.and_eq_true, decide_eq_true_eq] at h
    exact ⟨h.1, h.2⟩
  refine ⟨?_, ?_, ?_, ?_, ?_, ?_⟩
  · simp only [isspace, whitespace, List.mem_cons, List.mem_singleton, List.not_mem_nil,
      or_false, decide_eq_false_iff_not]
    rintro (h | h | h | h | h | h) <;> (subst h; revert h48; decide)
  all_goals (intro h; subst h; revert h48; decide)

theorem digits_value_append (ds : string_type) (c : Char) :
    digits_value (ds ++ [c]) = 10 * digits_value ds + (c.toNat - 48) := by
  simp [digits_value, List.foldl_append]

/-- Shape of what `Nat.toDigitsCore` produces in base ten. -/
theorem toDigitsCore_spec : ∀ (fuel n : Nat) (ds : List Char), n < fuel →
    ∃ L : List Char, Nat.toDigitsCore 10 fuel n ds = L ++ ds ∧ L ≠ [] ∧
      (∀ c ∈ L, isdigit c = true) ∧ digits_value L = n := by
  intro fuel
  induction fuel with
  | zero => intro n ds h; omega
  | succ fuel ih =>
    intro n ds h
    have hd := digitChar_spec (n % 10) (Nat.mod_lt _ (by decide))
    by_cases h0 : n / 10 = 0
    · refine ⟨[Nat.digitChar (n % 10)], ?_, by simp, ?_, ?_⟩
      · simp [Nat.toDigitsCore, h0]
      · intro c hc
        simp only [List.mem_singleton] at hc
        rw [hc]; exact hd.1
      · have : digits_value [Nat.digitChar (n % 10)] = (Nat.digitChar (n % 10)).toNat - 48 := by
          simp [digits_value]
        rw [this, hd.2]; omega
    · obtain ⟨L, hL, _, hdig, hval⟩ := ih (n / 10) (Nat.digitChar (n % 10) :: ds) (by omega)
      refine ⟨L ++ [Nat.digitChar (n % 10)], ?_, by simp, ?_, ?_⟩
      · simp [Nat.toDigitsCore, h0, hL]
      · intro c hc
        rcases List.mem_append.1 hc with hc | hc
        · exact hdig c hc
        · simp only [List.mem_singleton] at hc
          rw [hc]; exact hd.1
      · rw [digits_value_append, hval, hd.2]; omega

theorem toDigits_spec (n : Nat) :
    Nat.toDigits 10 n ≠ [] ∧ (∀ c ∈ Nat.toDigits 10 n, isdigit c = true) ∧
      digits_value (Nat.toDigits 10 n) = n := by
  obtain ⟨L, hL, hne, hdig, hval⟩ := toDigitsCore_spec (n + 1) n [] (by omega)
  have : Nat.toDigits 10 n = L := by simpa [Nat.toDigits] using hL
  rw [this]; exact ⟨hne, hdig, hval⟩

theorem takeWhile_all (q : Char → Bool) (l : List Char) (h : ∀ c ∈ l, q c = true) :
    l.takeWhile q = l := by
  induction l with
  | nil => rfl
  | cons a l ih =>
    have ha := h a (List.mem_cons_self _ _)
    simp [List.takeWhile_cons, ha, ih (fun c hc => h c (List.mem_cons_of_mem _ hc))]

/-- Parsing the decimal text of a count gives the count back. -/
theorem value_from_string_toDigits (n : Nat) (h : (n : Int) ≤ LONG_MAX) :
    value_from_string (Nat.toDigits 10 n) = Outcome.ok (n : Int) := by
  obtain ⟨hne, hdig, hval⟩ := toDigits_spec n
  obtain ⟨a, l, hal⟩ := List.exists_cons_of_ne_nil hne
  have ha := isdigit_facts a (hdig a (by rw [hal]; exact List.mem_cons_self _ _))
  have htw : (a :: l).takeWhile isdigit = a :: l :=
    takeWhile_all isdigit (a :: l) (by rw [← hal]; exact hdig)
  rw [hal] at hval
  unfold value_from_string
  simp only [hal, List.dropWhile_cons, ha.1, Bool.false_eq_true, if_false, List.head?_cons,
    Option.some.injEq, ha.2.1, ha.2.2.1, or_self, htw, hval]
  simp only [LONG_MIN, LONG_MAX] at h ⊢
  have h1 : ¬ ((n : Int) < -9223372036854775808 ∨ (9223372036854775807 : Int) < n) := by omega
  rw [if_neg (List.cons_ne_nil a l), if_neg h1]

/-! ## Lemmas: the socket -/

theorem wait_fields (s : Socket) :
    s.wait.pending = s.pending ∧ s.wait.written = s.written ∧
      s.wait.write_error = s.write_error ∧ s.wait.ready ≤ s.pending.length ∧
      (s.pending ≠ [] → 1 ≤ s.wait.ready) := by
  refine ⟨rfl, rfl, rfl, ?_, ?_⟩
  · simp only [Socket.wait]; exact Nat.min_le_right _ _
  · intro h
    have hpos := List.length_pos.2 h
    simp only [Socket.wait]
    exact Nat.le_min.2 ⟨Nat.le_max_right _ _, hpos⟩

theorem wait_ready_mono (s : Socket) (h : s.ready ≤ s.pending.length) :
    s.ready ≤ s.wait.ready := by
  simp only [Socket.wait]
  exact Nat.le_min.2 ⟨Nat.le_trans (Nat.le_add_right _ _) (Nat.le_max_left _ _), h⟩

/-- A peek shows a prefix of the pending bytes, non-empty unless the peer has
closed; consuming up to that many bytes right after removes exactly them. -/
theorem recv_peek (s : Socket) (len : Nat) (hlen : 0 < len) :
    ∃ m, (recv s len true).1 = s.pending.take m ∧ m ≤ len ∧ m ≤ s.pending.length ∧
      (s.pending ≠ [] → 1 ≤ m) ∧
      ∀ k, k ≤ m →
        (recv (recv s len true).2 k false).2.pending = s.pending.drop k ∧
        (recv (recv s len true).2 k false).2.written = s.written ∧
        (recv (recv s len true).2 k false).2.write_error = s.write_error := by
  obtain ⟨hp, hw, he, hr, hpos⟩ := wait_fields s
  refine ⟨min len s.wait.ready, ?_, Nat.min_le_left _ _, ?_, ?_, ?_⟩
  · simp [recv, hp]
  · exact Nat.le_trans (Nat.min_le_right _ _) hr
  · intro h; exact Nat.le_min.2 ⟨hlen, hpos h⟩
  · intro k hk
    have hk1 : k ≤ s.wait.ready := Nat.le_trans hk (Nat.min_le_right _ _)
    have hmono : s.wait.ready ≤ s.wait.wait.ready :=
      wait_ready_mono s.wait (by rw [hp]; exact hr)
    have hk2 : min k s.wait.wait.ready = k := Nat.min_eq_left (Nat.le_trans hk1 hmono)
    have hk3 : k ≤ s.pending.length := Nat.le_trans hk1 hr
    have hlen2 : (List.take k s.pending).length = k := by
      rw [List.length_take]; exact Nat.min_eq_left hk3
    obtain ⟨hp2, hw2, he2, _, _⟩ := wait_fields s.wait
    simp only [recv, if_true, Bool.false_eq_true, if_false, hp2, hp, hk2, hlen2, hw2, hw, he2, he,
      and_self]

/-- A consuming `recv` removes a prefix of the pending bytes, non-empty unless
the peer has closed. -/
theorem recv_consume (s : Socket) (len : Nat) (hlen : 0 < len) :
    ∃ m, (recv s len false).1 = s.pending.take m ∧
      (recv s len false).2.pending = s.pending.drop m ∧
      (recv s len false).2.written = s.written ∧
      (recv s len false).2.write_error = s.write_error ∧
      m ≤ len ∧ m ≤ s.pending.length ∧ (s.pending ≠ [] → 1 ≤ m) := by
  obtain ⟨hp, hw, he, hr, hpos⟩ := wait_fields s
  have hm : min len s.wait.ready ≤ s.pending.length :=
    Nat.le_trans (Nat.min_le_right _ _) hr
  have hlen2 : (List.take (min len s.wait.ready) s.pending).length = min len s.wait.ready := by
    rw [List.length_take]; exact Nat.min_eq_left hm
  refine ⟨min len s.wait.ready, ?_, ?_, ?_, ?_, Nat.min_le_left _ _, hm, ?_⟩
  · simp [recv, hp]
  · simp only [recv, Bool.false_eq_true, if_false, hp, hlen2]
  · simp only [recv, Bool.false_eq_true, if_false, hw]
  · simp only [recv, Bool.false_eq_true, if_false, he]
  · intro h; exact Nat.le_min.2 ⟨hlen, hpos h⟩

/-! ## Lemmas: `memchr` and `rtrim` -/

theorem memchr_none (c : Char) : ∀ l : string_type, c ∉ l → memchr l c = none
  | [], _ => rfl
  | b :: bs, h => by
    have hb : b ≠ c := fun e => h (e ▸ List.mem_cons_self _ _)
    have hbs : c ∉ bs := fun e => h (List.mem_cons_of_mem _ e)
    simp [memchr, hb, memchr_none c bs hbs]

theorem memchr_append (c : Char) (rest : string_type) :
    ∀ p : string_type, c ∉ p → memchr (p ++ c :: rest) c = some p.length
  | [], _ => by simp [memchr]
  | b :: bs, h => by
    have hb : b ≠ c := fun e => h (e ▸ List.mem_cons_self _ _)
    have hbs : c ∉ bs := fun e => h (List.mem_cons_of_mem _ e)
    simp [memchr, hb, memchr_append c rest bs hbs]

theorem find_last_not_of_none (ws : string_type) :
    ∀ l : string_type, (∀ c ∈ l, c ∈ ws) → find_last_not_of l ws = none
  | [], _ => rfl
  | b :: bs, h => by
    have hb : b ∈ ws := h b (List.mem_cons_self _ _)
    have ih := find_last_not_of_none ws bs (fun c hc => h c (List.mem_cons_of_mem _ hc))
    simp [find_last_not_of, ih, hb]

theorem find_last_not_of_append (ws : string_type) (x : Char) (t : string_type)
    (hx : x ∉ ws) (ht : ∀ c ∈ t, c ∈ ws) :
    ∀ a : string_type, find_last_not_of (a ++ x :: t) ws = some a.length
  | [] => by simp [find_last_not_of, find_last_not_of_none ws t ht, hx]
  | b :: bs => by
    simp [find_last_not_of, find_last_not_of_append ws x t hx ht bs]

/-- Trimming with `rtrim` drops a tail made of characters of `ws` after a character not in `ws`. -/
theorem rtrim_append (ws a : string_type) (x : Char) (t : string_type)
    (hx : x ∉ ws) (ht : ∀ c ∈ t, c ∈ ws) : rtrim (a ++ x :: t) ws = a ++ [x] := by
  simp [rtrim, find_last_not_of_append ws x t hx ht a, List.take_append_eq_append_take]

theorem rtrim_all (ws t : string_type) (ht : ∀ c ∈ t, c ∈ ws) : rtrim t ws = [] := by
  simp [rtrim, find_last_not_of_none ws t ht]

theorem trailing_split (ws : string_type) : ∀ str : string_type,
    (∀ c ∈ str, c ∈ ws) ∨ ∃ a x t, str = a ++ x :: t ∧ x ∉ ws ∧ ∀ c ∈ t, c ∈ ws
  | [] => Or.inl (by simp)
  | b :: bs => by
    rcases trailing_split ws bs with h | ⟨a, x, t, h, hx, ht⟩
    · by_cases hb : b ∈ ws
      · left
        intro c hc
        rcases List.mem_cons.1 hc with hc | hc
        · rw [hc]; exact hb
        · exact h c hc
      · exact Or.inr ⟨[], b, bs, rfl, hb, h⟩
    · exact Or.inr ⟨b :: a, x, t, by rw [h]; rfl, hx, ht⟩

/-- What `rtrim` returns: the string without its longest tail of characters of `ws`. -/
theorem rtrim_spec (ws str : string_type) :
    ∃ t, str = rtrim str ws ++ t ∧ (∀ c ∈ t, c ∈ ws) ∧
      ∀ c, (rtrim str ws).getLast? = some c → c ∉ ws := by
  rcases trailing_split ws str with h | ⟨a, x, t, h, hx, ht⟩
  · exact ⟨str, by simp [rtrim_all ws str h], h, by simp [rtrim_all ws str h]⟩
  · refine ⟨t, ?_, ht, ?_⟩
    · rw [h, rtrim_append ws a x t hx ht]; simp
    · intro c hc
      rw [h, rtrim_append ws a x t hx ht] at hc
      simp at hc
      rw [← hc]; exact hx

theorem rtrim_append_ws (ws str t : string_type) (ht : ∀ c ∈ t, c ∈ ws) :
    rtrim (str ++ t) ws = rtrim str ws := by
  rcases trailing_split ws str with h | ⟨a, x, t0, h, hx, ht0⟩
  · rw [rtrim_all ws str h]
    apply rtrim_all
    intro c hc
    rcases List.mem_append.1 hc with hc | hc
    · exact h c hc
    · exact ht c hc
  · rw [h, rtrim_append ws a x t0 hx ht0]
    have : a ++ x :: t0 ++ t = a ++ x :: (t0 ++ t) := by simp
    rw [this]
    apply rtrim_append ws a x (t0 ++ t) hx
    intro c hc
    rcases List.mem_append.1 hc with hc | hc
    · exact ht0 c hc
    · exact ht c hc

/-! ## Lemmas: `read_line` -/

theorem read_line_loop_found (max_size : Int) (fuel : Nat) (s : Socket) (t : Int)
    (oss : string_type) :
    read_line_loop max_size (fuel + 1) s t true oss = Outcome.ok (rtrim oss CRLF, s) := by
  simp [read_line_loop]

/-- The loop of `read_line` on a stream holding a newline: whatever the
arrival schedule, it stops right after the first newline. -/
theorem read_line_loop_spec (max_size t : Int) (ht : t < max_size) :
    ∀ (fuel : Nat) (p rest oss : string_type) (s : Socket),
      s.pending = p ++ '\n' :: rest → '\n' ∉ p → p.length + 2 ≤ fuel →
      ∃ s1, read_line_loop max_size fuel s t false oss
            = Outcome.ok (rtrim (oss ++ p ++ ['\n']) CRLF, s1) ∧
        s1.pending = rest ∧ s1.written = s.written ∧ s1.write_error = s.write_error := by
  intro fuel
  induction fuel with
  | zero => intro p rest oss s _ _ h; omega
  | succ fuel ih =>
    intro p rest oss s hs hp hfuel
    obtain ⟨m, hm, _, hmlen, hmpos, hcons⟩ := recv_peek s buffer_size (by decide)
    have hm1 : 1 ≤ m := hmpos (by rw [hs]; simp)
    have hlen : (List.take m s.pending).length = m := by
      rw [List.length_take]; exact Nat.min_eq_left hmlen
    have hcond : t < max_size ∧ false = false := ⟨ht, rfl⟩
    by_cases hcase : m ≤ p.length
    · -- no newline in this chunk: take all of it and go on
      have htake : List.take m s.pending = List.take m p := by
        rw [hs]; exact List.take_append_of_le_length hcase
      have hmem : memchr (List.take m p) '\n' = none :=
        memchr_none _ _ (fun h => hp (List.mem_of_mem_take h))
      obtain ⟨hpend, hwr, her⟩ := hcons m (Nat.le_refl m)
      have hpend2 : (recv (recv s buffer_size true).2 m false).2.pending
          = List.drop m p ++ '\n' :: rest := by
        rw [hpend, hs]; exact List.drop_append_of_le_length hcase
      obtain ⟨s1, h1, h2, h3, h4⟩ := ih (List.drop m p) rest (oss ++ List.take m p)
        (recv (recv s buffer_size true).2 m false).2 hpend2
        (fun h => hp (List.mem_of_mem_drop h))
        (by rw [List.length_drop]; omega)
      refine ⟨s1, ?_, h2, h3.trans hwr, h4.trans her⟩
      have hlen2 : (List.take m p).length = m := by rw [← htake]; exact hlen
      have hne : ¬ m = 0 := by omega
      rw [read_line_loop, if_pos hcond]
      simp only [hm, htake, hmem, hne, if_false, hlen2]
      rw [h1]
      simp [List.append_assoc, List.take_append_drop]
    · -- the newline is in this chunk: take the bytes up to it and stop
      have hcase2 : p.length + 1 ≤ m := by omega
      obtain ⟨k, hk⟩ : ∃ k, m = p.length + 1 + k := ⟨m - p.length - 1, by omega⟩
      have htake : List.take m s.pending = p ++ '\n' :: List.take k rest := by
        rw [hs, hk, List.take_append_eq_append_take, List.take_of_length_le (by omega)]
        have : p.length + 1 + k - p.length = k + 1 := by omega
        rw [this, List.take_succ_cons]
      have hmem : memchr (List.take m s.pending) '\n' = some p.length := by
        rw [htake]; exact memchr_append _ _ p hp
      obtain ⟨hpend, hwr, her⟩ := hcons (p.length + 1) hcase2
      have hpend2 : (recv (recv s buffer_size true).2 (p.length + 1) false).2.pending = rest := by
        rw [hpend, hs]
        have : p.length + 1 = (p ++ ['\n']).length := by simp
        rw [this]
        have h2 : p ++ '\n' :: rest = (p ++ ['\n']) ++ rest := by simp
        rw [h2, List.drop_left]
      have hne : ¬ (List.take m s.pending).length = 0 := by omega
      have hfirst : List.take (p.length + 1) (List.take m s.pending) = p ++ ['\n'] := by
        rw [htake]
        have h2 : p ++ '\n' :: List.take k rest = (p ++ ['\n']) ++ List.take k rest := by simp
        have : p.length + 1 = (p ++ ['\n']).length := by simp
        rw [h2, this, List.take_left]
      obtain ⟨f2, hf2⟩ : ∃ f2, fuel = f2 + 1 := ⟨fuel - 1, by omega⟩
      refine ⟨(recv (recv s buffer_size true).2 (p.length + 1) false).2, ?_, hpend2, hwr, her⟩
      rw [read_line_loop, if_pos hcond]
      simp only [hm, hmem, hne, if_false, hfirst]
      rw [hf2, read_line_loop_found]
      simp [List.append_assoc]

/-- Function `read_line` returns the text before the first newline, trimmed, and leaves
the bytes after that newline on the socket. -/
theorem read_line_spec (s : Socket) (max_size : Int) (hmax : 0 < max_size)
    (p rest : string_type) (hs : s.pending = p ++ '\n' :: rest) (hp : '\n' ∉ p) :
    ∃ s1, read_line s max_size = Outcome.ok (rtrim p CRLF, s1) ∧
      s1.pending = rest ∧ s1.written = s.written ∧ s1.write_error = s.write_error := by
  obtain ⟨s1, h1, h2, h3, h4⟩ := read_line_loop_spec max_size 0 hmax (s.pending.length + 2)
    p rest [] s hs hp (by rw [hs]; simp)
  refine ⟨s1, ?_, h2, h3, h4⟩
  have hgt : max_size > 0 := hmax
  rw [read_line, if_pos hgt, h1]
  have : ([] : string_type) ++ p ++ ['\n'] = p ++ ['\n'] := by simp
  rw [this, rtrim_append_ws CRLF p ['\n'] (by simp [CRLF])]

/-- A protocol line: text without newline that does not end in CR, followed by CRLF. -/
theorem read_line_crlf (s : Socket) (max_size : Int) (hmax : 0 < max_size)
    (l rest : string_type) (hs : s.pending = l ++ CRLF ++ rest) (hl : '\n' ∉ l)
    (hlast : ∀ c, l.getLast? = some c → c ≠ '\r') :
    ∃ s1, read_line s max_size = Outcome.ok (l, s1) ∧
      s1.pending = rest ∧ s1.written = s.written ∧ s1.write_error = s.write_error := by
  have hs2 : s.pending = (l ++ ['\r']) ++ '\n' :: rest := by rw [hs]; simp [CRLF]
  have hl2 : '\n' ∉ l ++ ['\r'] := by
    intro h
    rcases List.mem_append.1 h with h | h
    · exact hl h
    · simp at h
  obtain ⟨s1, h1, h2⟩ := read_line_spec s max_size hmax (l ++ ['\r']) rest hs2 hl2
  refine ⟨s1, ?_, h2⟩
  rw [h1]
  have htrim : rtrim (l ++ ['\r']) CRLF = l := by
    rw [rtrim_append_ws CRLF l ['\r'] (by simp [CRLF])]
    rcases List.eq_nil_or_concat l with h | ⟨a, x, h⟩
    · rw [h]; rfl
    · have hx1 : x ≠ '\r' := hlast x (by rw [h]; simp)
      have hx2 : x ≠ '\n' := fun e => hl (by rw [h, ← e]; simp)
      rw [h, List.concat_eq_append]
      exact rtrim_append CRLF a x [] (by simp [CRLF, hx1, hx2]) (by simp)
  rw [htrim]

/-! ## Lemmas: `read_n` -/

theorem read_n_loop_spec (n : Nat) :
    ∀ (fuel : Nat) (d rest buffer : string_type) (s : Socket),
      s.pending = d ++ rest → buffer.length + d.length = n → d.length + 1 ≤ fuel →
      ∃ s1, read_n_loop n fuel s buffer = Outcome.ok (c_str (buffer ++ d), s1) ∧
        s1.pending = rest ∧ s1.written = s.written ∧ s1.write_error = s.write_error := by
  intro fuel
  induction fuel with
  | zero => intro d rest buffer s _ _ h; omega
  | succ fuel ih =>
    intro d rest buffer s hs hn hfuel
    by_cases hd : d.length = 0
    · have hd2 : d = [] := List.length_eq_zero.1 hd
      subst hd2
      refine ⟨s, ?_, by simpa using hs, rfl, rfl⟩
      have hb : ¬ buffer.length ≠ n := by simp at hn; simp [hn]
      rw [read_n_loop, if_neg hb]; simp
    · have hb : buffer.length ≠ n := by omega
      obtain ⟨m, hm, hpend, hwr, her, hmle, _, hmpos⟩ :=
        recv_consume s (n - buffer.length) (by omega)
      have hm1 : 1 ≤ m := hmpos (by rw [hs]; intro h; simp at h; exact hd (by simp [h.1]))
      have hmd : m ≤ d.length := by omega
      have htake : List.take m s.pending = List.take m d := by
        rw [hs]; exact List.take_append_of_le_length hmd
      have hdrop : List.drop m s.pending = List.drop m d ++ rest := by
        rw [hs]; exact List.drop_append_of_le_length hmd
      have hlen : (List.take m d).length = m := by
        rw [List.length_take]; exact Nat.min_eq_left hmd
      obtain ⟨s1, h1, h2, h3, h4⟩ := ih (List.drop m d) rest (buffer ++ List.take m d)
        (recv s (n - buffer.length) false).2 (by rw [hpend, hdrop])
        (by rw [List.length_append, hlen, List.length_drop]; omega)
        (by rw [List.length_drop]; omega)
      refine ⟨s1, ?_, h2, h3.trans hwr, h4.trans her⟩
      have hne : ¬ (List.take m d).length = 0 := by omega
      rw [read_n_loop, if_pos hb]
      simp only [hm, htake, hne, if_false]
      rw [h1]
      simp [List.append_assoc, List.take_append_drop]

/-- Function `read_n` hands back the next `n` bytes, cut at the first NUL, and consumes
exactly those `n` bytes. -/
theorem read_n_spec (alloc_limit : Nat) (s : Socket) (d rest : string_type)
    (hs : s.pending = d ++ rest) (halloc : d.length + 1 ≤ alloc_limit)
    (hlong : (d.length : Int) + 1 ≤ LONG_MAX) :
    ∃ s1, read_n alloc_limit s (d.length : Int) = Outcome.ok (c_str d, s1) ∧
      s1.pending = rest ∧ s1.written = s.written ∧ s1.write_error = s.write_error := by
  obtain ⟨s1, h1, h2⟩ := read_n_loop_spec d.length (d.length + 1) d rest [] s hs (by simp)
    (Nat.le_refl _)
  refine ⟨s1, ?_, h2⟩
  have hO : ¬ (LONG_MAX < (d.length : Int) + 1) := by omega
  have hA : ¬ ((d.length : Int) + 1 < 0) := by omega
  have hL : ¬ ((alloc_limit : Int) < (d.length : Int) + 1) := by omega
  have hB : ¬ ((d.length : Int) < 0) := by omega
  rw [read_n, if_neg hO, if_neg hA, if_neg hL, if_neg hB]
  simpa using h1

theorem c_str_of_no_NUL (d : string_type) (h : NUL ∉ d) : c_str d = d := by
  apply takeWhile_all
  intro c hc
  have : c ≠ NUL := fun e => h (e ▸ hc)
  simp [this]

/-! ## Lemmas: the reply decoders on well-formed replies -/

theorem decimal_natCast (n : Nat) : decimal (n : Int) = Nat.toDigits 10 n := by
  have h : ¬ ((n : Int) < 0) := by omega
  simp [decimal, h]

/-- A header line (prefix character, decimal count, CRLF) decodes to the count
and only the header is consumed. -/
theorem recv_bulk_reply_int_header (s : Socket) (c : Char) (n : Nat) (rest : string_type)
    (hc : c ≠ '\n') (hn : (n : Int) ≤ LONG_MAX)
    (hs : s.pending = c :: Nat.toDigits 10 n ++ CRLF ++ rest) :
    ∃ s1, recv_bulk_reply_int s c = Outcome.ok ((n : Int), s1) ∧
      s1.pending = rest ∧ s1.written = s.written ∧ s1.write_error = s.write_error := by
  obtain ⟨hne, hdig, _⟩ := toDigits_spec n
  have hl : '\n' ∉ c :: Nat.toDigits 10 n := by
    intro h
    rcases List.mem_cons.1 h with h | h
    · exact hc h.symm
    · exact (isdigit_facts _ (hdig _ h)).2.2.2.1 rfl
  have hlast : ∀ x, (c :: Nat.toDigits 10 n).getLast? = some x → x ≠ '\r' := by
    intro x hx
    obtain ⟨a, l, hal⟩ := List.exists_cons_of_ne_nil hne
    rw [hal, List.getLast?_cons_cons, ← hal] at hx
    exact (isdigit_facts x (hdig x (List.mem_of_getLast?_eq_some hx))).2.2.2.2.1
  obtain ⟨s1, h1, h2⟩ := read_line_crlf s default_max_size (by decide)
    (c :: Nat.toDigits 10 n) rest hs hl hlast
  refine ⟨s1, ?_, h2⟩
  simp [recv_bulk_reply_int, h1, front, value_from_string_toDigits n hn]

/-- The integer decoder once the line it reads is known. -/
theorem recv_bulk_reply_int_of_line (s s1 : Socket) (line : string_type) (c : Char) (v : Int)
    (h1 : read_line s default_max_size = Outcome.ok (line, s1)) (hf : front line = c)
    (hv : value_from_string (line.drop 1) = Outcome.ok v) :
    recv_bulk_reply_int s c = Outcome.ok (v, s1) := by
  simp only [recv_bulk_reply_int, h1, hf, hv, ne_eq, not_true_eq_false, if_false]

/-- One well-formed bulk reply whose payload has no NUL decodes to the payload,
when the buffer of `read_n` (payload, CRLF and terminator) can be allocated. -/
theorem recv_bulk_reply_spec (alloc_limit : Nat) (s : Socket) (p rest : string_type)
    (hs : s.pending = bulk_encoding p ++ rest) (hnul : NUL ∉ p)
    (halloc : p.length + 3 ≤ alloc_limit) (hlen : (p.length : Int) + 3 ≤ LONG_MAX) :
    ∃ s1, recv_bulk_reply_ alloc_limit s = Outcome.ok (p, s1) ∧
      s1.pending = rest ∧ s1.written = s.written ∧ s1.write_error = s.write_error := by
  have hs1 : s.pending = '$' :: Nat.toDigits 10 p.length ++ CRLF ++ (p ++ CRLF ++ rest) := by
    rw [hs, bulk_encoding, decimal_natCast]; simp
  obtain ⟨s1, h1, h2, h3, h4⟩ := recv_bulk_reply_int_header s '$' p.length (p ++ CRLF ++ rest)
    (by decide) (by omega) hs1
  have h2b : s1.pending = (p ++ CRLF) ++ rest := by rw [h2]
  obtain ⟨s2, k1, k2, k3, k4⟩ := read_n_spec alloc_limit s1 (p ++ CRLF) rest h2b
    (by simp only [List.length_append, CRLF, List.length_cons, List.length_nil]; omega)
    (by simp only [List.length_append, CRLF, List.length_cons, List.length_nil]; push_cast; omega)
  refine ⟨s2, ?_, k2, k3.trans h3, k4.trans h4⟩
  have hnul2 : NUL ∉ p ++ CRLF := by
    intro h
    rcases List.mem_append.1 h with h | h
    · exact hnul h
    · revert h; decide
  rw [c_str_of_no_NUL _ hnul2] at k1
  have hlen2 : ((p ++ CRLF).length : Int) = (p.length : Int) + 2 := by simp [CRLF]
  rw [hlen2] at k1
  have hA : ¬ ((p.length : Int) = -1) := by omega
  have hB : ¬ (LONG_MAX < (p.length : Int) + 2) := by omega
  have hC : ¬ (p ++ CRLF = []) := by simp [CRLF]
  simp only [recv_bulk_reply_, prefix_single_bulk_reply, h1, k1, if_neg hA, if_neg hB, if_neg hC]
  simp [CRLF]

/-! ## Lemmas: outcomes of `read_line` -/

theorem memchr_lt (c : Char) : ∀ (l : string_type) (i : Nat), memchr l c = some i → i < l.length
  | [], i, h => by simp [memchr] at h
  | b :: bs, i, h => by
    by_cases hb : b = c
    · simp [memchr, hb] at h
      simp [← h]
    · simp only [memchr, hb, if_false, Option.map_eq_some'] at h
      obtain ⟨j, hj, hji⟩ := h
      have := memchr_lt c bs j hj
      simp only [List.length_cons]; omega

/-- With the loop bound used by `read_line` the loop always ends, and the only
exception it throws is the closed connection. -/
theorem read_line_loop_outcomes (max_size : Int) :
    ∀ (fuel : Nat) (s : Socket) (t : Int) (f : Bool) (oss : string_type),
      s.pending.length + 1 ≤ fuel →
      (∃ v, read_line_loop max_size fuel s t f oss = Outcome.ok v) ∨
      read_line_loop max_size fuel s t f oss
        = Outcome.raise (redis_error.connection_error "connection was closed".toList) := by
  intro fuel
  induction fuel with
  | zero => intro s t f oss h; omega
  | succ fuel ih =>
    intro s t f oss hfuel
    by_cases hcond : t < max_size ∧ f = false
    · obtain ⟨m, hm, _, hmlen, hmpos, hcons⟩ := recv_peek s buffer_size (by decide)
      have hlen : (List.take m s.pending).length = m := by
        rw [List.length_take]; exact Nat.min_eq_left hmlen
      by_cases hm0 : m = 0
      · right
        rw [read_line_loop, if_pos hcond]
        simp [hm, hm0]
      · have hne : ¬ (List.take m s.pending).length = 0 := by omega
        rw [read_line_loop, if_pos hcond]
        simp only [hm, hne, if_false]
        cases hmem : memchr (List.take m s.pending) '\n' with
        | none =>
          simp only []
          apply ih
          rw [hlen, (hcons m (Nat.le_refl m)).1, List.length_drop]; omega
        | some eol =>
          simp only []
          apply ih
          have := memchr_lt _ _ _ hmem
          rw [hlen] at this
          rw [(hcons (eol + 1) (by omega)).1, List.length_drop]; omega
    · left
      rw [read_line_loop, if_neg hcond]
      exact ⟨_, rfl⟩

/-- Function `read_line` is total: it returns a line, throws the closed connection, or
(for `max_size <= 0`) fails its assertion; the loop bound is never hit. -/
theorem read_line_total (s : Socket) (max_size : Int) :
    (∃ v, read_line s max_size = Outcome.ok v) ∨
    read_line s max_size
      = Outcome.raise (redis_error.connection_error "connection was closed".toList) ∨
    (max_size ≤ 0 ∧ read_line s max_size = Outcome.fault Fault.assertion_failed) := by
  by_cases h : max_size > 0
  · rw [read_line, if_pos h]
    rcases read_line_loop_outcomes max_size (s.pending.length + 2) s 0 false [] (by omega)
      with h1 | h1
    · exact Or.inl h1
    · exact Or.inr (Or.inl h1)
  · right; right
    rw [read_line, if_neg h]
    exact ⟨by omega, rfl⟩

/-- With the loop bound used by `read_n` the loop always ends: it returns the
data or throws the closed connection. -/
theorem read_n_loop_outcomes (n : Nat) :
    ∀ (fuel : Nat) (s : Socket) (buffer : string_type),
      buffer.length ≤ n → n - buffer.length + 1 ≤ fuel →
      (∃ v, read_n_loop n fuel s buffer = Outcome.ok v) ∨
      read_n_loop n fuel s buffer
        = Outcome.raise (redis_error.connection_error "connection was closed".toList) := by
  intro fuel
  induction fuel with
  | zero => intro s buffer _ h; omega
  | succ fuel ih =>
    intro s buffer hle hfuel
    by_cases hb : buffer.length ≠ n
    · obtain ⟨m, hm, _, _, _, hmle, hmlen, _⟩ := recv_consume s (n - buffer.length) (by omega)
      have hlen : (List.take m s.pending).length = m := by
        rw [List.length_take]; exact Nat.min_eq_left hmlen
      rw [read_n_loop, if_pos hb]
      by_cases hm0 : m = 0
      · right
        simp [hm, hm0]
      · have hne : ¬ (List.take m s.pending).length = 0 := by omega
        simp only [hm, hne, if_false]
        apply ih
        · rw [List.length_append, hlen]; omega
        · rw [List.length_append, hlen]; omega
    · left
      rw [read_n_loop, if_neg hb]
      exact ⟨_, rfl⟩

/-- Function `read_n` is total: data, the closed connection, or one of its
faults (an `n + 1` outside `long`, a failed allocation, the write before the
buffer for `n = -1`); the loop bound is never hit. -/
theorem read_n_total (alloc_limit : Nat) (s : Socket) (n : Int) :
    (∃ v, read_n alloc_limit s n = Outcome.ok v) ∨
    read_n alloc_limit s n
      = Outcome.raise (redis_error.connection_error "connection was closed".toList) ∨
    (LONG_MAX ≤ n ∧ read_n alloc_limit s n = Outcome.fault Fault.signed_overflow) ∨
    ((n < -1 ∨ (alloc_limit : Int) < n + 1) ∧
      read_n alloc_limit s n = Outcome.fault Fault.bad_alloc) ∨
    (n = -1 ∧ read_n alloc_limit s n = Outcome.fault Fault.out_of_bounds) := by
  by_cases hO : LONG_MAX < n + 1
  · right; right; left
    rw [read_n, if_pos hO]
    exact ⟨by omega, rfl⟩
  · by_cases hA : n + 1 < 0
    · right; right; right; left
      rw [read_n, if_neg hO, if_pos hA]
      exact ⟨Or.inl (by omega), rfl⟩
    · by_cases hL : (alloc_limit : Int) < n + 1
      · right; right; right; left
        rw [read_n, if_neg hO, if_neg hA, if_pos hL]
        exact ⟨Or.inr hL, rfl⟩
      · by_cases hB : n < 0
        · right; right; right; right
          rw [read_n, if_neg hO, if_neg hA, if_neg hL, if_pos hB]
          exact ⟨by omega, rfl⟩
        · rw [read_n, if_neg hO, if_neg hA, if_neg hL, if_neg hB]
          rcases read_n_loop_outcomes n.toNat (n.toNat + 1) s [] (by simp) (by simp) with h | h
          · exact Or.inl h
          · exact Or.inr (Or.inl h)

/-- For `n = -1` the allocation `new char[0]` succeeds and `buffer[n] = 0` writes
before the buffer, whatever the process can allocate. -/
theorem read_n_minus_one (alloc_limit : Nat) (s : Socket) :
    read_n alloc_limit s (-1) = Outcome.fault Fault.out_of_bounds := by
  have hO : ¬ (LONG_MAX < (-1 : Int) + 1) := by decide
  have hA : ¬ ((-1 : Int) + 1 < 0) := by decide
  have hL : ¬ ((alloc_limit : Int) < (-1 : Int) + 1) := by omega
  have hB : (-1 : Int) < 0 := by decide
  rw [read_n, if_neg hO, if_neg hA, if_neg hL, if_pos hB]

/-- For `n < -1` the size `n + 1` of the allocation is negative. -/
theorem read_n_negative (alloc_limit : Nat) (s : Socket) (n : Int) (h : n < -1) :
    read_n alloc_limit s n = Outcome.fault Fault.bad_alloc := by
  have hO : ¬ (LONG_MAX < n + 1) := by simp only [LONG_MAX]; omega
  have hA : n + 1 < 0 := by omega
  rw [read_n, if_neg hO, if_pos hA]

/-! ## Bulk replies (C1) -/

/-- C1: the code at the failing input.  The well-formed bulk reply
`$3 CRLF b NUL r CRLF` carries the 3-byte payload `b NUL r`.  `read_n` receives all
five bytes, then builds its result with `std::string(const char *)`, which stops at
the NUL; the length check of `recv_bulk_reply_` finds one byte instead of five and
throws `protocol_error`, where the payload was to be returned. -/
theorem bulk_reply_NUL_payload_rejected :
    bulk_encoding ['b', NUL, 'r'] = ['$', '3', '\r', '\n', 'b', NUL, 'r', '\r', '\n'] ∧
    recv_bulk_reply_ 4096 ⟨bulk_encoding ['b', NUL, 'r'], 0, [], [], none⟩
      = Outcome.raise (redis_error.protocol_error
          "invalid bulk reply data; data of unexpected length".toList) := by
  decide

/-! ## Command encoding (C2) -/

/-- C2, as stated, fails: `set("foo", "bar")` writes `SET`, two spaces, `foo bar`, CRLF.
The constructor of `makecmd` appends a space after the command name and
`operator<<` puts another one in front of every argument. -/
theorem set_foo_bar_written :
    set ⟨"+OK\r\n".toList, 0, [], [], none⟩ "foo".toList "bar".toList
      = Outcome.ok ⟨[], 0, [], "SET  foo bar\r\n".toList, none⟩ ∧
    "SET  foo bar\r\n".toList ≠ "SET foo bar\r\n".toList := by
  decide

/-- C2 (amended): the encoder emits the command name and one space, then each
argument preceded by one space, then CRLF; `set(k, v)` writes exactly
`SET` + two spaces + k + one space + v + CRLF and then decodes the status reply. -/
theorem set_writes_request (s : Socket) (k v : string_type) (hw : s.write_error = none) :
    set s k v = recv_ok_reply_
      { s with written := s.written ++ ("SET ".toList ++ [' '] ++ k ++ [' '] ++ v ++ "\r\n".toList) } := by
  simp [set, send_, hw, makecmd, makecmd.put, makecmd.str, CRLF]

/-- C2 witness: the request of `set("foo", "bar")` on a socket that answers `+OK`. -/
theorem set_writes_request_witness :
    set ⟨"+OK\r\n".toList, 0, [], [], none⟩ "foo".toList "bar".toList
      = recv_ok_reply_ ⟨"+OK\r\n".toList, 0, [], "SET  foo bar\r\n".toList, none⟩ :=
  set_writes_request ⟨"+OK\r\n".toList, 0, [], [], none⟩ "foo".toList "bar".toList rfl

/-! ## read_line (C3, C4) -/

/-- C3: when the pending bytes are `p`, a newline and `rest`, with no newline in
`p`, then for every `max_size > 0` and every arrival schedule `read_line`
returns `p` without its trailing CR/LF characters and leaves exactly `rest`
on the socket. -/
theorem read_line_consumes_one_line (s : Socket) (max_size : Int) (hmax : 0 < max_size)
    (p rest : string_type) (hs : s.pending = p ++ '\n' :: rest) (hp : '\n' ∉ p) :
    ∃ line t s1, read_line s max_size = Outcome.ok (line, s1) ∧
      p = line ++ t ∧ (∀ c ∈ t, c = '\r' ∨ c = '\n') ∧
      (∀ c, line.getLast? = some c → c ≠ '\r' ∧ c ≠ '\n') ∧
      s1.pending = rest := by
  obtain ⟨s1, h1, h2, _, _⟩ := read_line_spec s max_size hmax p rest hs hp
  obtain ⟨t, ht1, ht2, ht3⟩ := rtrim_spec CRLF p
  refine ⟨rtrim p CRLF, t, s1, h1, ht1, ?_, ?_, h2⟩
  · intro c hc
    have := ht2 c hc
    simpa [CRLF] using this
  · intro c hc
    have := ht3 c hc
    simpa [CRLF] using this

/-- C3 witness: `+OK CR LF` followed by the start of the next reply, peeked in
chunks of one and two bytes. -/
theorem read_line_consumes_one_line_witness :
    ∃ line t s1,
      read_line ⟨"+OK\r\n$3\r\nbar".toList, 0, [1, 0, 2, 0, 1], [], none⟩ 2048
        = Outcome.ok (line, s1) ∧
      "+OK\r".toList = line ++ t ∧ (∀ c ∈ t, c = '\r' ∨ c = '\n') ∧
      (∀ c, line.getLast? = some c → c ≠ '\r' ∧ c ≠ '\n') ∧
      s1.pending = "$3\r\nbar".toList :=
  read_line_consumes_one_line ⟨"+OK\r\n$3\r\nbar".toList, 0, [1, 0, 2, 0, 1], [], none⟩ 2048
    (by decide) "+OK\r".toList "$3\r\nbar".toList (by decide) (by decide)

/-- C4, as stated, fails: with `max_size = 10` and a stream whose first newline is
its 13th byte, all of it in one peeked chunk, `read_line` raises nothing and
returns the 12 bytes before the newline. -/
theorem read_line_max_size_no_error :
    read_line ⟨"aaaaaaaaaaaa\n".toList, 13, [], [], none⟩ 10
      = Outcome.ok ("aaaaaaaaaaaa".toList, ⟨[], 0, [], [], none⟩) := by
  decide

/-- C4 (amended): `read_line` has no error for a line longer than `max_size`.
The only exception it throws is `connection_error("connection was closed")`, and
it throws it only when the peer closes a stream that holds no newline at all. -/
theorem read_line_raises_only_closed (s : Socket) (max_size : Int) (e : redis_error)
    (h : read_line s max_size = Outcome.raise e) :
    e = redis_error.connection_error "connection was closed".toList ∧ '\n' ∉ s.pending := by
  constructor
  · rcases read_line_total s max_size with ⟨v, hv⟩ | hr | ⟨_, hf⟩
    · rw [hv] at h; cases h
    · rw [hr] at h; cases h; rfl
    · rw [hf] at h; cases h
  · intro hmem
    obtain ⟨p, rest, hs, hp⟩ := List.eq_append_cons_of_mem hmem
    by_cases hmax : 0 < max_size
    · obtain ⟨s1, h1, _⟩ := read_line_spec s max_size hmax p rest hs hp
      rw [h1] at h; cases h
    · have hgt : ¬ max_size > 0 := hmax
      rw [read_line, if_neg hgt] at h; cases h

/-- C4 witness: three newline-free bytes, then the peer closes. -/
theorem read_line_raises_only_closed_witness :
    read_line ⟨"abc".toList, 0, [], [], none⟩ 10
        = Outcome.raise (redis_error.connection_error "connection was closed".toList) ∧
      redis_error.connection_error "connection was closed".toList
        = redis_error.connection_error "connection was closed".toList ∧
      '\n' ∉ (⟨"abc".toList, 0, [], [], none⟩ : Socket).pending :=
  ⟨by decide, read_line_raises_only_closed ⟨"abc".toList, 0, [], [], none⟩ 10
    (redis_error.connection_error "connection was closed".toList) (by decide)⟩

/-! ## Multi-bulk replies (C5, C6) -/

/-- C5: the code at the failing input.  The well-formed one-element reply
`*1 CRLF $1 CRLF NUL CRLF` has the single NUL byte as its payload.  `read_n`
receives the three bytes and returns the empty string, its `std::string(const
char *)` stopping at the NUL; the bulk decoder throws `protocol_error` and the
output vector stays empty, where the sequence of that one payload was to be
returned. -/
theorem multi_bulk_NUL_payload_rejected :
    multi_bulk_encoding [[NUL]]
      = ['*', '1', '\r', '\n', '$', '1', '\r', '\n', NUL, '\r', '\n'] ∧
    recv_multi_bulk_reply_ 4096 ⟨multi_bulk_encoding [[NUL]], 0, [], [], none⟩ []
      = ([], Outcome.raise (redis_error.protocol_error "invalid bulk reply data; empty".toList)) := by
  decide

/-- C6: on the header `*-1 CRLF` the multi-bulk decoder throws `key_error`; on the
header `*0 CRLF` it throws nothing, returns 0, leaves the output vector as it
was and consumes nothing after the header. -/
theorem multi_bulk_nil_is_not_empty (alloc_limit : Nat) (s : Socket) (out : string_vector) (rest : string_type) :
    (s.pending = "*-1\r\n".toList ++ rest →
      recv_multi_bulk_reply_ alloc_limit s out
        = (out, Outcome.raise (redis_error.key_error "no such key".toList))) ∧
    (s.pending = "*0\r\n".toList ++ rest →
      ∃ s1, recv_multi_bulk_reply_ alloc_limit s out = (out, Outcome.ok (0, s1)) ∧ s1.pending = rest) := by
  constructor
  · intro hs
    obtain ⟨s1, h1, _⟩ := read_line_crlf s default_max_size (by decide) "*-1".toList rest
      (by rw [hs]; rfl) (by decide) (by decide)
    have hv : value_from_string ['-', '1'] = Outcome.ok (-1) := by decide
    simp [recv_multi_bulk_reply_, recv_bulk_reply_int, h1, front, prefix_multi_bulk_reply, hv]
  · intro hs
    obtain ⟨s1, h1, h2, _⟩ := read_line_crlf s default_max_size (by decide) "*0".toList rest
      (by rw [hs]; rfl) (by decide) (by decide)
    have hv : value_from_string ['0'] = Outcome.ok 0 := by decide
    refine ⟨s1, ?_, h2⟩
    simp [recv_multi_bulk_reply_, recv_bulk_reply_int, h1, front, prefix_multi_bulk_reply, hv,
      recv_multi_bulk_loop]

/-- C6 witness: both headers, each followed by the start of a later reply. -/
theorem multi_bulk_nil_is_not_empty_witness :
    recv_multi_bulk_reply_ 4096 ⟨"*-1\r\n+OK".toList, 0, [2, 2], [], none⟩ ["x".toList]
        = (["x".toList], Outcome.raise (redis_error.key_error "no such key".toList)) ∧
    ∃ s1, recv_multi_bulk_reply_ 4096 ⟨"*0\r\n+OK".toList, 0, [2, 2], [], none⟩ ["x".toList]
        = (["x".toList], Outcome.ok (0, s1)) ∧ s1.pending = "+OK".toList :=
  ⟨(multi_bulk_nil_is_not_empty 4096 ⟨"*-1\r\n+OK".toList, 0, [2, 2], [], none⟩ ["x".toList]
      "+OK".toList).1 (by decide),
   (multi_bulk_nil_is_not_empty 4096 ⟨"*0\r\n+OK".toList, 0, [2, 2], [], none⟩ ["x".toList]
      "+OK".toList).2 (by decide)⟩

/-! ## get on a nil reply (C7) -/

/-- C7: for every key, `get` whose reply stream starts with `$-1 CRLF` returns
`missing_value`, raises nothing and consumes nothing after that header. -/
theorem get_nil_reply_returns_missing_value (alloc_limit : Nat) (s : Socket) (key rest : string_type)
    (hw : s.write_error = none) (hs : s.pending = "$-1\r\n".toList ++ rest) :
    ∃ s1, get alloc_limit s key = Outcome.ok (missing_value, s1) ∧ s1.pending = rest := by
  obtain ⟨s1, h1, h2, _⟩ := read_line_crlf
    { s with written := s.written ++ makecmd.str (makecmd.put (makecmd "GET".toList false) key) }
    default_max_size (by decide) "$-1".toList rest (by rw [hs]; rfl) (by decide) (by decide)
  have hint := recv_bulk_reply_int_of_line _ s1 "$-1".toList '$' (-1) h1 rfl (by decide)
  have hsend : send_ s (makecmd.str (makecmd.put (makecmd "GET".toList false) key))
      = Outcome.ok { s with
          written := s.written ++ makecmd.str (makecmd.put (makecmd "GET".toList false) key) } := by
    simp only [send_, hw]
  refine ⟨s1, ?_, h2⟩
  simp only [get, hsend, recv_bulk_reply_, prefix_single_bulk_reply, hint, if_true]

/-- C7 witness: `get("k")` on a socket whose reply is `$-1 CRLF` and then more. -/
theorem get_nil_reply_returns_missing_value_witness :
    ∃ s1, get 4096 ⟨"$-1\r\n+OK\r\n".toList, 0, [1, 1], [], none⟩ "k".toList
        = Outcome.ok ("**nonexistent-key**".toList, s1) ∧ s1.pending = "+OK\r\n".toList :=
  get_nil_reply_returns_missing_value 4096 ⟨"$-1\r\n+OK\r\n".toList, 0, [1, 1], [], none⟩
    "k".toList "+OK\r\n".toList rfl (by decide)

/-! ## Status replies (C8, C9) -/

/-- C8: for every message `m` without CR or LF, `recv_single_line_reply_` on the
line `-ERR ` + m + CRLF throws `protocol_error` with message `m`, or
`unknown error` when `m` is empty; it returns no value. -/
theorem status_reply_server_error (s : Socket) (m rest : string_type)
    (hm : '\r' ∉ m ∧ '\n' ∉ m) (hs : s.pending = "-ERR ".toList ++ m ++ "\r\n".toList ++ rest) :
    recv_single_line_reply_ s
      = Outcome.raise (redis_error.protocol_error
          (if m = [] then "unknown error".toList else m)) := by
  have hl : '\n' ∉ "-ERR ".toList ++ m := by
    intro h
    rcases List.mem_append.1 h with h | h
    · revert h; decide
    · exact hm.2 h
  have hlast : ∀ c, ("-ERR ".toList ++ m).getLast? = some c → c ≠ '\r' := by
    intro c hc e
    subst e
    have := List.mem_of_getLast?_eq_some hc
    rcases List.mem_append.1 this with h | h
    · revert h; decide
    · exact hm.1 h
  obtain ⟨s1, h1, _⟩ := read_line_crlf s default_max_size (by decide) ("-ERR ".toList ++ m) rest
    hs hl hlast
  have hpre : prefix_status_reply_error.isPrefixOf ("-ERR ".toList ++ m) = true := by
    simp [prefix_status_reply_error]
  have hdrop : List.drop prefix_status_reply_error.length ("-ERR ".toList ++ m) = m := by
    simp [prefix_status_reply_error]
  have hne : ¬ ("-ERR ".toList ++ m = []) := by simp
  simp only [recv_single_line_reply_, h1, if_neg hne, hpre, if_true, hdrop]
  by_cases hm0 : m = []
  · simp [hm0]
  · simp [hm0]

/-- C8 witness: `-ERR no such key` and the empty message. -/
theorem status_reply_server_error_witness :
    recv_single_line_reply_ ⟨"-ERR no such key\r\n".toList, 0, [3, 3, 3], [], none⟩
        = Outcome.raise (redis_error.protocol_error
            (if "no such key".toList = [] then "unknown error".toList else "no such key".toList)) ∧
    recv_single_line_reply_ ⟨"-ERR \r\n".toList, 0, [], [], none⟩
        = Outcome.raise (redis_error.protocol_error
            (if ([] : string_type) = [] then "unknown error".toList else [])) :=
  ⟨status_reply_server_error ⟨"-ERR no such key\r\n".toList, 0, [3, 3, 3], [], none⟩
      "no such key".toList [] (by decide) (by decide),
   status_reply_server_error ⟨"-ERR \r\n".toList, 0, [], [], none⟩ [] [] (by decide) (by decide)⟩

/-- C9: for every non-empty line that does not start with `-ERR `,
`recv_single_line_reply_` returns the line after its first character when that
character is `+`, and otherwise throws
`protocol_error("unexpected prefix for status reply")`. -/
theorem status_reply_by_leading_char (s s1 : Socket) (line : string_type)
    (h : read_line s default_max_size = Outcome.ok (line, s1)) (hne : line ≠ [])
    (hpre : ¬ "-ERR ".toList <+: line) :
    recv_single_line_reply_ s =
      if line.head? = some '+' then Outcome.ok (line.drop 1, s1)
      else Outcome.raise
        (redis_error.protocol_error "unexpected prefix for status reply".toList) := by
  have hpre2 : ¬ (prefix_status_reply_error.isPrefixOf line = true) := by
    rw [ List.isPrefixOf_iff_prefix]; exact hpre
  obtain ⟨a, l, hal⟩ := List.exists_cons_of_ne_nil hne
  subst hal
  simp only [recv_single_line_reply_, h, if_neg hne, if_neg hpre2, front, List.headD_cons,
    prefix_status_reply_value, List.head?_cons, Option.some.injEq]
  by_cases ha : a = '+'
  · simp [ha]
  · simp [ha]

/-- C9 witness: the lines `+PONG` (returned without the `+`) and `:1` (rejected). -/
theorem status_reply_by_leading_char_witness :
    recv_single_line_reply_ ⟨"+PONG\r\n".toList, 0, [2, 2], [], none⟩
        = (if "+PONG".toList.head? = some '+'
            then Outcome.ok ("+PONG".toList.drop 1, ⟨[], 0, [], [], none⟩)
            else Outcome.raise
              (redis_error.protocol_error "unexpected prefix for status reply".toList)) ∧
    recv_single_line_reply_ ⟨":1\r\n".toList, 0, [], [], none⟩
        = (if ":1".toList.head? = some '+'
            then Outcome.ok (":1".toList.drop 1, ⟨[], 0, [], [], none⟩)
            else Outcome.raise
              (redis_error.protocol_error "unexpected prefix for status reply".toList)) :=
  ⟨status_reply_by_leading_char ⟨"+PONG\r\n".toList, 0, [2, 2], [], none⟩ ⟨[], 0, [], [], none⟩
      "+PONG".toList (by decide) (by decide) (by decide),
   status_reply_by_leading_char ⟨":1\r\n".toList, 0, [], [], none⟩ ⟨[], 0, [], [], none⟩
      ":1".toList (by decide) (by decide) (by decide)⟩

/-! ## The integer decoder (C10) -/

/-- C10: for an expected prefix `c` among `$`, `*`, `:` and every line read whose
first character is not `c` (the empty line included, where `line[0]` is the
terminating NUL), `recv_bulk_reply_(c)` throws
`protocol_error("unexpected prefix for bulk reply")` and returns no integer. -/
theorem integer_decoder_prefix_check (s s1 : Socket) (line : string_type) (c : Char)
    (hc : c = '$' ∨ c = '*' ∨ c = ':')
    (h : read_line s default_max_size = Outcome.ok (line, s1))
    (hfirst : line.head? ≠ some c) :
    recv_bulk_reply_int s c
      = Outcome.raise (redis_error.protocol_error "unexpected prefix for bulk reply".toList) := by
  have hfront : front line ≠ c := by
    cases line with
    | nil =>
      rcases hc with hc | hc | hc <;> (subst hc; decide)
    | cons a l =>
      intro e
      apply hfirst
      simpa [front] using e
  simp only [recv_bulk_reply_int, h, if_pos hfront]

/-- C10 witness: the empty line (`CRLF` alone) and the line `-ERR x`, with `$` expected. -/
theorem integer_decoder_prefix_check_witness :
    recv_bulk_reply_int ⟨"\r\n".toList, 0, [], [], none⟩ '$'
        = Outcome.raise (redis_error.protocol_error "unexpected prefix for bulk reply".toList) ∧
    recv_bulk_reply_int ⟨"-ERR x\r\n".toList, 0, [1, 1], [], none⟩ '$'
        = Outcome.raise (redis_error.protocol_error "unexpected prefix for bulk reply".toList) :=
  ⟨integer_decoder_prefix_check ⟨"\r\n".toList, 0, [], [], none⟩ ⟨[], 0, [], [], none⟩ []
      '$' (Or.inl rfl) (by decide) (by decide),
   integer_decoder_prefix_check ⟨"-ERR x\r\n".toList, 0, [1, 1], [], none⟩
      ⟨[], 0, [], [], none⟩ "-ERR x".toList '$' (Or.inl rfl) (by decide) (by decide)⟩

/-! ## Lemmas: signed decimal text -/

theorem takeWhile_nil_of_head (q : Char → Bool) (l : List Char)
    (h : ∀ d, l.head? = some d → q d = false) : l.takeWhile q = [] := by
  cases l with
  | nil => rfl
  | cons a t => simp [List.takeWhile_cons, h a rfl]

/-- The decimal text of an integer in the range of `long`: one line fragment
that `value_from_string` reads back. -/
theorem decimal_spec (n : Int) (hn : LONG_MIN ≤ n ∧ n ≤ LONG_MAX) :
    '\n' ∉ decimal n ∧ (∀ x, (decimal n).getLast? = some x → x ≠ '\r') ∧
      value_from_string (decimal n) = Outcome.ok n := by
  by_cases hneg : n < 0
  · obtain ⟨hne, hdig, hval⟩ := toDigits_spec n.natAbs
    have hdec : decimal n = '-' :: Nat.toDigits 10 n.natAbs := by simp [decimal, hneg]
    obtain ⟨a, l, hal⟩ := List.exists_cons_of_ne_nil hne
    have htw : (a :: l).takeWhile isdigit = a :: l :=
      takeWhile_all isdigit (a :: l) (by rw [← hal]; exact hdig)
    refine ⟨?_, ?_, ?_⟩
    · rw [hdec]
      intro h
      rcases List.mem_cons.1 h with h | h
      · revert h; decide
      · exact (isdigit_facts _ (hdig _ h)).2.2.2.1 rfl
    · intro x hx
      rw [hdec, hal, List.getLast?_cons_cons, ← hal] at hx
      exact (isdigit_facts x (hdig x (List.mem_of_getLast?_eq_some hx))).2.2.2.2.1
    · have hsp : isspace '-' = false := by decide
      have hv : -((digits_value (a :: l) : Nat) : Int) = n := by
        rw [← hal, hval]; omega
      have hrange : ¬ (n < LONG_MIN ∨ LONG_MAX < n) := by omega
      rw [hdec, hal]
      unfold value_from_string
      simp only [List.dropWhile_cons, hsp, Bool.false_eq_true, if_false, List.head?_cons,
        true_or, if_true, List.tail_cons, htw, hv]
      rw [if_neg (List.cons_ne_nil a l), if_neg hrange]
  · have hdec : decimal n = Nat.toDigits 10 n.toNat := by simp [decimal, hneg]
    obtain ⟨hne, hdig, _⟩ := toDigits_spec n.toNat
    have hcast : ((n.toNat : Nat) : Int) = n := by omega
    refine ⟨?_, ?_, ?_⟩
    · rw [hdec]
      intro h
      exact (isdigit_facts _ (hdig _ h)).2.2.2.1 rfl
    · intro x hx
      rw [hdec] at hx
      exact (isdigit_facts x (hdig x (List.mem_of_getLast?_eq_some hx))).2.2.2.2.1
    · rw [hdec, value_from_string_toDigits n.toNat (by omega), hcast]

/-! ## The integer decoder on its payload (C11, C12) -/

/-- C11, as stated, fails: on the line `:3abc` the decoder returns 3 and throws
nothing; `operator>>` reads the leading digits and leaves the rest unread. -/
theorem integer_decoder_accepts_trailing_text :
    recv_bulk_reply_int ⟨":3abc\r\n".toList, 0, [], [], none⟩ ':'
      = Outcome.ok (3, ⟨[], 0, [], [], none⟩) := by
  decide

/-- C11 (amended): for every line made of the expected prefix and a remainder `r`
that does not start, after leading white space and an optional sign, with a
decimal digit (`r` empty, `abc`, `-`), `recv_bulk_reply_(prefix)` throws
`value_error` and returns no integer. -/
theorem integer_decoder_rejects_non_numeric (s s1 : Socket) (c : Char) (r : string_type)
    (h : read_line s default_max_size = Outcome.ok (c :: r, s1))
    (hr : ∀ body, (r.dropWhile isspace = body ∨ r.dropWhile isspace = '+' :: body ∨
        r.dropWhile isspace = '-' :: body) → ∀ d, body.head? = some d → isdigit d = false) :
    recv_bulk_reply_int s c
      = Outcome.raise (redis_error.value_error "invalid number".toList) := by
  have hv : value_from_string r
      = Outcome.raise (redis_error.value_error "invalid number".toList) := by
    unfold value_from_string
    cases hd : r.dropWhile isspace with
    | nil => simp
    | cons x t =>
      rw [hd] at hr
      by_cases hx : x = '-' ∨ x = '+'
      · have ht : t.takeWhile isdigit = [] := by
          apply takeWhile_nil_of_head
          rcases hx with hx | hx
          · exact hr t (Or.inr (Or.inr (by rw [hx])))
          · exact hr t (Or.inr (Or.inl (by rw [hx])))
        simp only [List.head?_cons, Option.some.injEq, hx, if_true, List.tail_cons, ht]
      · have ht : (x :: t).takeWhile isdigit = [] :=
          takeWhile_nil_of_head _ _ (hr (x :: t) (Or.inl rfl))
        simp only [List.head?_cons, Option.some.injEq, hx, if_false, ht, if_true]
  simp only [recv_bulk_reply_int, h, front, List.headD_cons, ne_eq, not_true_eq_false, if_false,
    List.drop_succ_cons, List.drop_zero, hv]

/-- C11 witness: the line `:abc`. -/
theorem integer_decoder_rejects_non_numeric_witness :
    recv_bulk_reply_int ⟨":abc\r\n".toList, 0, [2, 2], [], none⟩ ':'
      = Outcome.raise (redis_error.value_error "invalid number".toList) :=
  integer_decoder_rejects_non_numeric ⟨":abc\r\n".toList, 0, [2, 2], [], none⟩
    ⟨[], 0, [], [], none⟩ ':' "abc".toList (by decide)
    (by
      intro body hb d hd
      have h0 : List.dropWhile isspace "abc".toList = "abc".toList := by decide
      rw [h0] at hb
      rcases hb with hb | hb | hb
      · rw [← hb] at hd
        cases hd
        decide
      · cases hb
      · cases hb)

/-- C12: for every integer `n` in the range of `long` and every prefix character
`c` that can start a line (any character but the newline), `recv_bulk_reply_(c)`
on the line `c` + decimal(n) + CRLF returns exactly `n` and consumes that line. -/
theorem integer_decoder_inverts_decimal (s : Socket) (c : Char) (n : Int) (rest : string_type)
    (hc : c ≠ '\n') (hn : LONG_MIN ≤ n ∧ n ≤ LONG_MAX)
    (hs : s.pending = c :: decimal n ++ CRLF ++ rest) :
    ∃ s1, recv_bulk_reply_int s c = Outcome.ok (n, s1) ∧ s1.pending = rest := by
  obtain ⟨hnl, hlast, hval⟩ := decimal_spec n hn
  have hne : decimal n ≠ [] := by
    intro h0
    have hempty : value_from_string []
        = Outcome.raise (redis_error.value_error "invalid number".toList) := by decide
    rw [h0, hempty] at hval
    cases hval
  have hl : '\n' ∉ c :: decimal n := by
    intro h
    rcases List.mem_cons.1 h with h | h
    · exact hc h.symm
    · exact hnl h
  have hlast2 : ∀ x, (c :: decimal n).getLast? = some x → x ≠ '\r' := by
    intro x hx
    obtain ⟨a, l, hal⟩ := List.exists_cons_of_ne_nil hne
    rw [hal, List.getLast?_cons_cons, ← hal] at hx
    exact hlast x hx
  obtain ⟨s1, h1, h2, _⟩ := read_line_crlf s default_max_size (by decide)
    (c :: decimal n) rest hs hl hlast2
  exact ⟨s1, recv_bulk_reply_int_of_line s s1 (c :: decimal n) c n h1 rfl hval, h2⟩

/-- C12 witness: the integer reply `:-42` and the largest `long` as a bulk length. -/
theorem integer_decoder_inverts_decimal_witness :
    (∃ s1, recv_bulk_reply_int ⟨":-42\r\n+OK\r\n".toList, 0, [1, 1, 1], [], none⟩ ':'
        = Outcome.ok (-42, s1) ∧ s1.pending = "+OK\r\n".toList) ∧
    (∃ s1, recv_bulk_reply_int ⟨"$9223372036854775807\r\n".toList, 0, [], [], none⟩ '$'
        = Outcome.ok (9223372036854775807, s1) ∧ s1.pending = []) :=
  ⟨integer_decoder_inverts_decimal ⟨":-42\r\n+OK\r\n".toList, 0, [1, 1, 1], [], none⟩ ':' (-42)
      "+OK\r\n".toList (by decide) (by decide) (by decide),
   integer_decoder_inverts_decimal ⟨"$9223372036854775807\r\n".toList, 0, [], [], none⟩ '$'
      9223372036854775807 [] (by decide) (by decide) (by decide)⟩

/-! ## Argument checks of hmset and hmget (C13, C14) -/

/-- C13: for every key and every `fields`, `values` of different lengths or with
`fields` empty, `hmset` throws `protocol_error("invalid arguments")` and leaves the
connection as it was: nothing written, nothing read. -/
theorem hmset_fails_fast (s : Socket) (key : string_type) (fields values : string_vector)
    (h : fields.length ≠ values.length ∨ fields = []) :
    hmset s key fields values
      = (s, Outcome.raise (redis_error.protocol_error "invalid arguments".toList)) := by
  have hcond : fields.length ≠ values.length ∨ fields.length ≤ 0 := by
    rcases h with h | h
    · exact Or.inl h
    · exact Or.inr (by simp [h])
  simp only [hmset, if_pos hcond]

/-- C13 witness: two fields with one value, and no field at all, on a socket
that holds a pending reply. -/
theorem hmset_fails_fast_witness :
    hmset ⟨"+OK\r\n".toList, 5, [], "AUTH  pw\r\n".toList, none⟩ "k".toList
        ["f1".toList, "f2".toList] ["v1".toList]
      = (⟨"+OK\r\n".toList, 5, [], "AUTH  pw\r\n".toList, none⟩,
          Outcome.raise (redis_error.protocol_error "invalid arguments".toList)) ∧
    hmset ⟨"+OK\r\n".toList, 5, [], "AUTH  pw\r\n".toList, none⟩ "k".toList [] []
      = (⟨"+OK\r\n".toList, 5, [], "AUTH  pw\r\n".toList, none⟩,
          Outcome.raise (redis_error.protocol_error "invalid arguments".toList)) :=
  ⟨hmset_fails_fast ⟨"+OK\r\n".toList, 5, [], "AUTH  pw\r\n".toList, none⟩ "k".toList
      ["f1".toList, "f2".toList] ["v1".toList] (Or.inl (by decide)),
   hmset_fails_fast ⟨"+OK\r\n".toList, 5, [], "AUTH  pw\r\n".toList, none⟩ "k".toList
      [] [] (Or.inr rfl)⟩

/-- C14: the code at the failing input.  `hmget("k", {}, out)` throws nothing of its
own: it writes the request `HMGET`, two spaces, `k`, one space, CRLF and decodes the
reply; on the reply `*0` it returns normally, and on an error reply the exception
is that of the reply decoder, not of an argument check. -/
theorem hmget_empty_fields_is_sent (alloc_limit : Nat) :
    hmget alloc_limit ⟨"*0\r\n".toList, 0, [], [], none⟩ "k".toList [] []
      = ([], Outcome.ok ⟨[], 0, [], "HMGET  k \r\n".toList, none⟩) ∧
    hmget alloc_limit ⟨"-ERR wrong number of arguments\r\n".toList, 0, [], [], none⟩ "k".toList [] []
      = ([], Outcome.raise
          (redis_error.protocol_error "unexpected prefix for bulk reply".toList)) := by
  have hs0 : send_ ⟨"*0\r\n".toList, 0, [], [], none⟩ (makecmd.str
        (makecmd.put_vector (makecmd.put (makecmd "HMGET".toList false) "k".toList) []))
      = Outcome.ok ⟨"*0\r\n".toList, 0, [], "HMGET  k \r\n".toList, none⟩ := by decide
  have hs1 : send_ ⟨"-ERR wrong number of arguments\r\n".toList, 0, [], [], none⟩ (makecmd.str
        (makecmd.put_vector (makecmd.put (makecmd "HMGET".toList false) "k".toList) []))
      = Outcome.ok ⟨"-ERR wrong number of arguments\r\n".toList, 0, [],
          "HMGET  k \r\n".toList, none⟩ := by decide
  have h0 : recv_bulk_reply_int ⟨"*0\r\n".toList, 0, [], "HMGET  k \r\n".toList, none⟩ '*'
      = Outcome.ok (0, ⟨[], 0, [], "HMGET  k \r\n".toList, none⟩) := by decide
  have h1 : recv_bulk_reply_int
        ⟨"-ERR wrong number of arguments\r\n".toList, 0, [], "HMGET  k \r\n".toList, none⟩ '*'
      = Outcome.raise (redis_error.protocol_error "unexpected prefix for bulk reply".toList) := by
    decide
  have c0 : ¬ ((0 : Int) = -1) := by decide
  constructor
  · simp only [hmget, hs0, recv_multi_bulk_reply_, prefix_multi_bulk_reply, h0, if_neg c0,
      Int.toNat_zero, recv_multi_bulk_loop]
  · simp only [hmget, hs1, recv_multi_bulk_reply_, prefix_multi_bulk_reply, h1]

/-! ## read_n on a connection that closes early, and its buffer (C15) -/

theorem read_n_loop_closed (n : Nat) :
    ∀ (fuel : Nat) (s : Socket) (buffer : string_type),
      buffer.length + s.pending.length < n → s.pending.length + 1 ≤ fuel →
      read_n_loop n fuel s buffer
        = Outcome.raise (redis_error.connection_error "connection was closed".toList) := by
  intro fuel
  induction fuel with
  | zero => intro s buffer _ h; omega
  | succ fuel ih =>
    intro s buffer hlt hfuel
    have hb : buffer.length ≠ n := by omega
    obtain ⟨m, hm, hpend, _, _, _, hmlen, _⟩ := recv_consume s (n - buffer.length) (by omega)
    have hlen : (List.take m s.pending).length = m := by
      rw [List.length_take]; exact Nat.min_eq_left hmlen
    rw [read_n_loop, if_pos hb]
    by_cases hm0 : m = 0
    · simp [hm, hm0]
    · have hne : ¬ (List.take m s.pending).length = 0 := by omega
      simp only [hm, hne, if_false]
      apply ih
      · rw [List.length_append, hlen, hpend, List.length_drop]; omega
      · rw [hpend, List.length_drop]; omega

/-- Where the buffer exists, the early close is detected: for every `n > 0` with
`n + 1` within `long` and within what the process can allocate, and every stream
that holds fewer than `n` bytes before the peer closes, however the bytes arrive,
`read_n(socket, n)` throws `connection_error("connection was closed")` and
returns no data. -/
theorem read_n_early_close (alloc_limit : Nat) (s : Socket) (n : Int) (hn : 0 < n)
    (hlong : n + 1 ≤ LONG_MAX) (halloc : n + 1 ≤ (alloc_limit : Int))
    (hlt : (s.pending.length : Int) < n) :
    read_n alloc_limit s n
      = Outcome.raise (redis_error.connection_error "connection was closed".toList) := by
  have hO : ¬ (LONG_MAX < n + 1) := by omega
  have hA : ¬ (n + 1 < 0) := by omega
  have hL : ¬ ((alloc_limit : Int) < n + 1) := by omega
  have hB : ¬ (n < 0) := by omega
  rw [read_n, if_neg hO, if_neg hA, if_neg hL, if_neg hB]
  apply read_n_loop_closed
  · simp only [List.length_nil]; omega
  · omega

/-- An instance of `read_n_early_close`: `n = 5` and a peer that closes after four
bytes (`n - 1`), delivered in short reads of one and two bytes, with an allocation
limit of 4096 bytes. -/
theorem read_n_early_close_witness :
    read_n 4096 ⟨"abcd".toList, 0, [1, 2, 1], [], none⟩ 5
      = Outcome.raise (redis_error.connection_error "connection was closed".toList) :=
  read_n_early_close 4096 ⟨"abcd".toList, 0, [1, 2, 1], [], none⟩ 5 (by decide) (by decide)
    (by decide) (by decide)

/-- A size above what the process can allocate: `new char[n + 1]` throws
`std::bad_alloc` before the first `recv`, whatever the stream holds. -/
theorem read_n_unallocatable (alloc_limit : Nat) (s : Socket) (n : Int)
    (hlong : n + 1 ≤ LONG_MAX) (hbig : (alloc_limit : Int) < n + 1) :
    read_n alloc_limit s n = Outcome.fault Fault.bad_alloc := by
  have hO : ¬ (LONG_MAX < n + 1) := by omega
  have hA : ¬ (n + 1 < 0) := by omega
  rw [read_n, if_neg hO, if_neg hA, if_pos hbig]

/-- C15: the code at the failing input.  For `n = LONG_MAX`, which is greater than
0, `read_n(socket, n)` evaluates `n + 1` outside the range of `long` before it
allocates or reads anything: whatever the stream delivers before the peer closes
and whatever the process can allocate, no `connection_error` is thrown.  The wire
reaches this call: on the bulk header `$9223372036854775805` the bulk decoder of
`get` calls `read_n(socket, LONG_MAX)`. -/
theorem read_n_size_overflows (alloc_limit : Nat) (s : Socket) :
    0 < LONG_MAX ∧
    read_n alloc_limit s LONG_MAX = Outcome.fault Fault.signed_overflow ∧
    get alloc_limit ⟨"$9223372036854775805\r\n".toList, 0, [], [], none⟩ "k".toList
      = Outcome.fault Fault.signed_overflow := by
  have hO : LONG_MAX < LONG_MAX + 1 := by decide
  have hr : ∀ t : Socket, read_n alloc_limit t LONG_MAX
      = Outcome.fault Fault.signed_overflow := by
    intro t
    rw [read_n, if_pos hO]
  have hs : send_ ⟨"$9223372036854775805\r\n".toList, 0, [], [], none⟩
      (makecmd.str (makecmd.put (makecmd "GET".toList false) "k".toList))
      = Outcome.ok ⟨"$9223372036854775805\r\n".toList, 0, [], "GET  k\r\n".toList, none⟩ := by
    decide
  have hi : recv_bulk_reply_int
        ⟨"$9223372036854775805\r\n".toList, 0, [], "GET  k\r\n".toList, none⟩ '$'
      = Outcome.ok (9223372036854775805, ⟨[], 0, [], "GET  k\r\n".toList, none⟩) := by decide
  have c : ¬ ((9223372036854775805 : Int) = -1) := by decide
  have e : ((9223372036854775805 : Int) + 2) = LONG_MAX := by decide
  have o : ¬ (LONG_MAX < LONG_MAX) := by decide
  refine ⟨by decide, hr s, ?_⟩
  simp only [get, hs, recv_bulk_reply_, prefix_single_bulk_reply, hi, if_neg c, e, if_neg o, hr]

/-! ## The success token of set and auth (C16) -/

theorem send_ok (s : Socket) (msg : string_type) (hw : s.write_error = none) :
    send_ s msg = Outcome.ok { s with written := s.written ++ msg } := by
  simp only [send_, hw]

/-- The status decoder followed by the `OK` check, on a status line with text `t`. -/
theorem recv_ok_reply_status (s : Socket) (t rest : string_type)
    (hnl : '\n' ∉ t) (hcr : ∀ x, t.getLast? = some x → x ≠ '\r')
    (hs : s.pending = '+' :: t ++ CRLF ++ rest) :
    (t = "OK".toList → ∃ s1, recv_ok_reply_ s = Outcome.ok s1 ∧ s1.pending = rest) ∧
    (t ≠ "OK".toList → recv_ok_reply_ s
        = Outcome.raise (redis_error.protocol_error "expected OK response".toList)) := by
  have hl : '\n' ∉ '+' :: t := by
    intro h
    rcases List.mem_cons.1 h with h | h
    · revert h; decide
    · exact hnl h
  have hlast : ∀ x, ('+' :: t).getLast? = some x → x ≠ '\r' := by
    intro x hx
    cases t with
    | nil =>
      simp at hx
      rw [← hx]; decide
    | cons a l =>
      rw [List.getLast?_cons_cons] at hx
      exact hcr x hx
  obtain ⟨s1, h1, h2, _⟩ := read_line_crlf s default_max_size (by decide) ('+' :: t) rest hs hl hlast
  have hpre : prefix_status_reply_error.isPrefixOf ('+' :: t) = false := by
    simp [prefix_status_reply_error, List.isPrefixOf]
  have hsingle : recv_single_line_reply_ s = Outcome.ok (t, s1) := by
    simp [recv_single_line_reply_, h1, hpre, front, prefix_status_reply_value]
  constructor
  · intro ht
    refine ⟨s1, ?_, h2⟩
    simp [recv_ok_reply_, hsingle, ht, status_reply_ok]
  · intro ht
    have ht2 : t ≠ status_reply_ok := ht
    simp only [recv_ok_reply_, hsingle, ne_eq, ht2, not_false_eq_true, if_true]

/-- C16: for every status reply line `+` + t + CRLF (the text `t` holds no newline
and does not end in CR, so that it is the text of the line), `set(k, v)` and
`auth(pass)` return normally if and only if `t` is `OK`, and for every other `t`
they throw `protocol_error`. -/
theorem set_and_auth_require_OK (s : Socket) (k v pass t rest : string_type)
    (hw : s.write_error = none) (hnl : '\n' ∉ t) (hcr : ∀ x, t.getLast? = some x → x ≠ '\r')
    (hs : s.pending = '+' :: t ++ "\r\n".toList ++ rest) :
    ((∃ s1, set s k v = Outcome.ok s1) ↔ t = "OK".toList) ∧
    (t ≠ "OK".toList → set s k v
        = Outcome.raise (redis_error.protocol_error "expected OK response".toList)) ∧
    ((∃ s1, auth s pass = Outcome.ok s1) ↔ t = "OK".toList) ∧
    (t ≠ "OK".toList → auth s pass
        = Outcome.raise (redis_error.protocol_error "expected OK response".toList)) := by
  have key : ∀ msg : string_type,
      ((∃ s1, recv_ok_reply_ { s with written := s.written ++ msg } = Outcome.ok s1)
          ↔ t = "OK".toList) ∧
      (t ≠ "OK".toList → recv_ok_reply_ { s with written := s.written ++ msg }
          = Outcome.raise (redis_error.protocol_error "expected OK response".toList)) := by
    intro msg
    obtain ⟨hyes, hno⟩ := recv_ok_reply_status { s with written := s.written ++ msg } t rest
      hnl hcr hs
    refine ⟨⟨?_, ?_⟩, hno⟩
    · rintro ⟨s1, h1⟩
      by_contra hne
      rw [hno hne] at h1
      cases h1
    · intro ht
      obtain ⟨s1, h1, _⟩ := hyes ht
      exact ⟨s1, h1⟩
  refine ⟨?_, ?_, ?_, ?_⟩
  · simp only [set, send_ok s _ hw]; exact (key _).1
  · simp only [set, send_ok s _ hw]; exact (key _).2
  · simp only [auth, send_ok s _ hw]; exact (key _).1
  · simp only [auth, send_ok s _ hw]; exact (key _).2

/-- C16 witness: the replies `+OK` and `+QUEUED`. -/
theorem set_and_auth_require_OK_witness :
    (∃ s1, set ⟨"+OK\r\n".toList, 0, [], [], none⟩ "k".toList "v".toList = Outcome.ok s1) ∧
    auth ⟨"+QUEUED\r\n".toList, 0, [1, 1], [], none⟩ "pw".toList
      = Outcome.raise (redis_error.protocol_error "expected OK response".toList) :=
  ⟨(set_and_auth_require_OK ⟨"+OK\r\n".toList, 0, [], [], none⟩ "k".toList "v".toList
      "pw".toList "OK".toList [] rfl (by decide) (by decide) (by decide)).1.2 rfl,
   (set_and_auth_require_OK ⟨"+QUEUED\r\n".toList, 0, [1, 1], [], none⟩ "k".toList "v".toList
      "pw".toList "QUEUED".toList [] rfl (by decide) (by decide) (by decide)).2.2.2 (by decide)⟩

/-! ## get outside the error taxonomy (C17) -/

/-- C17: the code at the failing input.  On the reply header `$-3` the bulk
decoder calls `read_n(socket, -1)`, which allocates `new char[0]` and writes
`buffer[-1]`; on `$-4` it calls `read_n(socket, -2)`, whose `new char[-1]` fails.
Neither outcome is a returned string or one of the four `redis_error` kinds. -/
theorem get_negative_length_faults (alloc_limit : Nat) :
    get alloc_limit ⟨"$-3\r\n".toList, 0, [], [], none⟩ "k".toList
      = Outcome.fault Fault.out_of_bounds ∧
    get alloc_limit ⟨"$-4\r\n".toList, 0, [], [], none⟩ "k".toList
      = Outcome.fault Fault.bad_alloc := by
  have hs3 : send_ ⟨"$-3\r\n".toList, 0, [], [], none⟩
      (makecmd.str (makecmd.put (makecmd "GET".toList false) "k".toList))
      = Outcome.ok ⟨"$-3\r\n".toList, 0, [], "GET  k\r\n".toList, none⟩ := by decide
  have hs4 : send_ ⟨"$-4\r\n".toList, 0, [], [], none⟩
      (makecmd.str (makecmd.put (makecmd "GET".toList false) "k".toList))
      = Outcome.ok ⟨"$-4\r\n".toList, 0, [], "GET  k\r\n".toList, none⟩ := by decide
  have h3 : recv_bulk_reply_int ⟨"$-3\r\n".toList, 0, [], "GET  k\r\n".toList, none⟩ '$'
      = Outcome.ok (-3, ⟨[], 0, [], "GET  k\r\n".toList, none⟩) := by decide
  have h4 : recv_bulk_reply_int ⟨"$-4\r\n".toList, 0, [], "GET  k\r\n".toList, none⟩ '$'
      = Outcome.ok (-4, ⟨[], 0, [], "GET  k\r\n".toList, none⟩) := by decide
  have e3 : ((-3 : Int) + 2) = -1 := by decide
  have e4 : ((-4 : Int) + 2) = -2 := by decide
  have c3 : ¬ ((-3 : Int) = -1) := by decide
  have c4 : ¬ ((-4 : Int) = -1) := by decide
  have o3 : ¬ (LONG_MAX < (-1 : Int)) := by decide
  have o4 : ¬ (LONG_MAX < (-2 : Int)) := by decide
  constructor
  · simp only [get, hs3, recv_bulk_reply_, prefix_single_bulk_reply, h3, if_neg c3, e3,
      if_neg o3, read_n_minus_one]
  · simp only [get, hs4, recv_bulk_reply_, prefix_single_bulk_reply, h4, if_neg c4, e4,
      if_neg o4, read_n_negative alloc_limit _ (-2) (by decide)]

/-! ## Lemmas: the socket after `read_line` -/

theorem recv_written (s : Socket) (len : Nat) (peek : Bool) :
    (recv s len peek).2.written = s.written ∧
      (recv s len peek).2.write_error = s.write_error := by
  cases peek <;> exact ⟨rfl, rfl⟩

/-- Reading a line never touches what has been written. -/
theorem read_line_loop_socket_written (max_size : Int) :
    ∀ (fuel : Nat) (s : Socket) (t : Int) (f : Bool),
      (read_line_loop_socket max_size fuel s t f).written = s.written := by
  intro fuel
  induction fuel with
  | zero => intro s t f; rfl
  | succ fuel ih =>
    intro s t f
    by_cases hcond : t < max_size ∧ f = false
    · rw [read_line_loop_socket, if_pos hcond]
      simp only []
      by_cases hlen : (recv s buffer_size true).1.length = 0
      · rw [if_pos hlen]; exact (recv_written s buffer_size true).1
      · rw [if_neg hlen]
        cases memchr (recv s buffer_size true).1 '\n' with
        | none =>
          simp only []
          rw [ih, (recv_written _ _ false).1, (recv_written s buffer_size true).1]
        | some eol =>
          simp only []
          rw [ih, (recv_written _ _ false).1, (recv_written s buffer_size true).1]
    · rw [read_line_loop_socket, if_neg hcond]

theorem read_line_socket_written (s : Socket) (max_size : Int) :
    (read_line_socket s max_size).written = s.written := by
  unfold read_line_socket
  split_ifs
  · exact read_line_loop_socket_written _ _ _ _ _
  · rfl

/-- When `read_line` returns, the socket it returns is the one `read_line_socket` gives. -/
theorem read_line_loop_agree (max_size : Int) :
    ∀ (fuel : Nat) (s : Socket) (t : Int) (f : Bool) (oss line : string_type) (s1 : Socket),
      read_line_loop max_size fuel s t f oss = Outcome.ok (line, s1) →
      read_line_loop_socket max_size fuel s t f = s1 := by
  intro fuel
  induction fuel with
  | zero => intro s t f oss line s1 h; simp [read_line_loop] at h
  | succ fuel ih =>
    intro s t f oss line s1 h
    by_cases hcond : t < max_size ∧ f = false
    · rw [read_line_loop, if_pos hcond] at h
      rw [read_line_loop_socket, if_pos hcond]
      simp only [] at h ⊢
      by_cases hlen : (recv s buffer_size true).1.length = 0
      · rw [if_pos hlen] at h; cases h
      · rw [if_neg hlen] at h
        rw [if_neg hlen]
        cases hmem : memchr (recv s buffer_size true).1 '\n' with
        | none =>
          rw [hmem] at h
          simp only [] at h ⊢
          exact ih _ _ _ _ _ _ h
        | some eol =>
          rw [hmem] at h
          simp only [] at h ⊢
          exact ih _ _ _ _ _ _ h
    · rw [read_line_loop, if_neg hcond] at h
      rw [read_line_loop_socket, if_neg hcond]
      cases h; rfl

theorem read_line_agree (s s1 : Socket) (max_size : Int) (line : string_type)
    (h : read_line s max_size = Outcome.ok (line, s1)) : read_line_socket s max_size = s1 := by
  unfold read_line at h
  unfold read_line_socket
  by_cases hmax : max_size > 0
  · rw [if_pos hmax] at h
    rw [if_pos hmax]
    exact read_line_loop_agree _ _ _ _ _ _ _ _ h
  · rw [if_neg hmax] at h
    cases h

theorem recv_ok_reply_socket (s s2 : Socket) (h : recv_ok_reply_ s = Outcome.ok s2) :
    read_line_socket s default_max_size = s2 := by
  unfold recv_ok_reply_ recv_single_line_reply_ at h
  cases hr : read_line s default_max_size with
  | ok v =>
    obtain ⟨line, s1⟩ := v
    rw [hr] at h
    simp only [] at h
    have hs1 := read_line_agree s s1 default_max_size line hr
    by_cases h1 : line = []
    · rw [if_pos h1] at h; cases h
    · rw [if_neg h1] at h
      by_cases h2 : prefix_status_reply_error.isPrefixOf line = true
      · rw [if_pos h2] at h
        split_ifs at h
      · rw [if_neg h2] at h
        by_cases h3 : front line ≠ prefix_status_reply_value
        · rw [if_pos h3] at h; cases h
        · rw [if_neg h3] at h
          simp only [] at h
          by_cases h4 : List.drop 1 line ≠ status_reply_ok
          · rw [if_pos h4] at h; cases h
          · rw [if_neg h4] at h
            cases h
            exact hs1
  | raise e => rw [hr] at h; cases h
  | fault f => rw [hr] at h; cases h

/-- Once its argument check has passed and the write succeeds, `hmset` leaves the
socket with the request appended to what was written and one line read. -/
theorem hmset_socket (s : Socket) (key : string_type) (fields values : string_vector)
    (hw : s.write_error = none) (hlen : fields.length = values.length) (hne : fields ≠ []) :
    ∃ msg, msg = makecmd.str (hmset_loop fields values fields.length 0
        (makecmd.put (makecmd "HMSET".toList false) key)) ∧
      (hmset s key fields values).1
        = read_line_socket { s with written := s.written ++ msg } default_max_size := by
  have hcond : ¬ (fields.length ≠ values.length ∨ fields.length ≤ 0) := by
    have := List.length_pos.2 hne
    omega
  refine ⟨_, rfl, ?_⟩
  simp only [hmset, if_neg hcond, send_ok s _ hw]
  generalize makecmd.str (hmset_loop fields values fields.length 0
    (makecmd.put (makecmd "HMSET".toList false) key)) = msg
  cases hr : recv_ok_reply_ { s with written := s.written ++ msg } with
  | ok s2 => exact (recv_ok_reply_socket _ s2 hr).symm
  | raise e => rfl
  | fault f => rfl

/-! ## Lemmas: the words of a request line -/

theorem not_isspace_facts (c : Char) (h : isspace c = false) :
    c ≠ ' ' ∧ c ≠ '\n' ∧ c ≠ '\r' := by
  refine ⟨?_, ?_, ?_⟩ <;> (intro e; subst e; revert h; decide)

theorem words_from_append : ∀ (w cur rest : string_type), ' ' ∉ w →
    words_from cur (w ++ rest) = words_from (cur ++ w) rest
  | [], cur, rest, _ => by simp
  | c :: w, cur, rest, h => by
    have hc : c ≠ ' ' := fun e => h (e ▸ List.mem_cons_self _ _)
    have hw : ' ' ∉ w := fun e => h (List.mem_cons_of_mem _ e)
    have ih := words_from_append w (cur ++ [c]) rest hw
    show words_from cur (c :: (w ++ rest)) = words_from (cur ++ c :: w) rest
    rw [words_from, if_neg hc, ih, List.append_assoc, List.singleton_append]

/-- The text made of one space and one word, for each word of a list. -/
theorem words_from_args : ∀ (ws : List string_type) (cur : string_type), cur ≠ [] →
    (∀ w ∈ ws, w ≠ [] ∧ ' ' ∉ w) →
    words_from cur ((ws.map (fun w => ' ' :: w)).flatten) = cur :: ws
  | [], cur, hcur, _ => by simp [words_from, hcur]
  | w :: ws, cur, hcur, h => by
    obtain ⟨hw1, hw2⟩ := h w (List.mem_cons_self _ _)
    have ih := words_from_args ws w hw1 (fun x hx => h x (List.mem_cons_of_mem _ hx))
    show words_from cur (' ' :: (w ++ (ws.map (fun w => ' ' :: w)).flatten)) = cur :: w :: ws
    rw [words_from, if_pos rfl, if_neg hcur, words_from_append w [] _ hw2, List.nil_append, ih]

theorem mem_args_text (c : Char) : ∀ (ws : List string_type),
    c ∈ (ws.map (fun w => ' ' :: w)).flatten → c = ' ' ∨ ∃ w ∈ ws, c ∈ w
  | [], h => by simp at h
  | w :: ws, h => by
    simp only [List.map_cons, List.flatten_cons, List.cons_append, List.mem_cons,
      List.mem_append] at h
    rcases h with h | h | h
    · exact Or.inl h
    · exact Or.inr ⟨w, List.mem_cons_self _ _, h⟩
    · rcases mem_args_text c ws h with h | ⟨x, hx, hc⟩
      · exact Or.inl h
      · exact Or.inr ⟨x, List.mem_cons_of_mem _ hx, hc⟩

theorem mem_interleave (w : string_type) : ∀ (fs vs : string_vector),
    w ∈ interleave fs vs → w ∈ fs ∨ w ∈ vs
  | [], _, h => by simp [interleave] at h
  | _ :: _, [], h => by simp [interleave] at h
  | f :: fs, v :: vs, h => by
    simp only [interleave, List.mem_cons] at h
    rcases h with h | h | h
    · exact Or.inl (by rw [h]; exact List.mem_cons_self _ _)
    · exact Or.inr (by rw [h]; exact List.mem_cons_self _ _)
    · rcases mem_interleave w fs vs h with h | h
      · exact Or.inl (List.mem_cons_of_mem _ h)
      · exact Or.inr (List.mem_cons_of_mem _ h)

theorem getD_length_append (d f : string_type) (fs : string_vector) :
    ∀ pf : string_vector, (pf ++ f :: fs).getD pf.length d = f
  | [] => rfl
  | a :: pf => by
    have ih := getD_length_append d f fs pf
    simpa using ih

/-- The loop of `hmset` appends, for each pair, a space, the field, a space and
the value. -/
theorem hmset_loop_spec : ∀ (fs vs pf pv : string_vector) (maker : string_type),
    pf.length = pv.length → fs.length = vs.length →
    hmset_loop (pf ++ fs) (pv ++ vs) fs.length pf.length maker
      = maker ++ ((interleave fs vs).map (fun w => ' ' :: w)).flatten
  | [], vs, pf, pv, maker, _, _ => by simp [hmset_loop, interleave]
  | f :: fs, [], pf, pv, maker, _, h => by simp at h
  | f :: fs, v :: vs, pf, pv, maker, hp, h => by
    have hlen : fs.length = vs.length := by simpa using h
    have ih := hmset_loop_spec fs vs (pf ++ [f]) (pv ++ [v])
      (makecmd.put (makecmd.put maker f) v) (by simp [hp]) hlen
    have hf : (pf ++ f :: fs).getD pf.length [] = f := getD_length_append [] f fs pf
    have hv : (pv ++ v :: vs).getD pf.length [] = v := by
      rw [hp]; exact getD_length_append [] v vs pv
    have e1 : pf ++ f :: fs = (pf ++ [f]) ++ fs := by simp
    have e2 : pv ++ v :: vs = (pv ++ [v]) ++ vs := by simp
    have e3 : (pf ++ [f]).length = pf.length + 1 := by simp
    rw [List.length_cons, hmset_loop, hf, hv, e1, e2, ← e3, ih]
    simp [makecmd.put, interleave]

/-- The request written by `hmset` once its argument check has passed, for
arguments that are plain words. -/
theorem hmset_request_spec (s : Socket) (key : string_type) (fields values : string_vector)
    (hw : s.write_error = none) (hlen : fields.length = values.length) (hne : fields ≠ [])
    (hk : plain_word key) (hf : ∀ f ∈ fields, plain_word f) (hv : ∀ v ∈ values, plain_word v) :
    ∃ line, (hmset s key fields values).1.written = s.written ++ line ++ CRLF ∧
      '\n' ∉ line ∧ '\r' ∉ line ∧
      words line = "HMSET".toList :: key :: interleave fields values := by
  obtain ⟨msg, hmsg, hsock⟩ := hmset_socket s key fields values hw hlen hne
  have hloop := hmset_loop_spec fields values [] []
    (makecmd.put (makecmd "HMSET".toList false) key) rfl hlen
  simp only [List.nil_append, List.length_nil] at hloop
  have hplain : ∀ w ∈ interleave fields values, plain_word w := by
    intro w hw
    rcases mem_interleave w fields values hw with h | h
    · exact hf w h
    · exact hv w h
  have hsp : ∀ w, plain_word w → w ≠ [] ∧ ' ' ∉ w := by
    intro w hw
    exact ⟨hw.1, fun h => (not_isspace_facts _ (hw.2 _ h)).1 rfl⟩
  refine ⟨"HMSET".toList ++ ' ' :: ' ' :: key
      ++ ((interleave fields values).map (fun w => ' ' :: w)).flatten, ?_, ?_, ?_, ?_⟩
  · rw [hsock, read_line_socket_written, hmsg, hloop]
    simp [makecmd.str, makecmd.put, makecmd]
  · intro h
    simp only [List.mem_append, List.mem_cons] at h
    rcases h with (h | h | h | h) | h
    · revert h; decide
    · revert h; decide
    · revert h; decide
    · exact (not_isspace_facts _ (hk.2 _ h)).2.1 rfl
    · rcases mem_args_text _ _ h with h | ⟨w, hw, hc⟩
      · revert h; decide
      · exact (not_isspace_facts _ ((hplain w hw).2 _ hc)).2.1 rfl
  · intro h
    simp only [List.mem_append, List.mem_cons] at h
    rcases h with (h | h | h | h) | h
    · revert h; decide
    · revert h; decide
    · revert h; decide
    · exact (not_isspace_facts _ (hk.2 _ h)).2.2 rfl
    · rcases mem_args_text _ _ h with h | ⟨w, hw, hc⟩
      · revert h; decide
      · exact (not_isspace_facts _ ((hplain w hw).2 _ hc)).2.2 rfl
  · have e : "HMSET".toList ++ ' ' :: ' ' :: key
        ++ ((interleave fields values).map (fun w => ' ' :: w)).flatten
        = "HMSET".toList ++ (' ' :: (' ' :: (key
          ++ ((interleave fields values).map (fun w => ' ' :: w)).flatten))) := by simp
    have h5 : ("HMSET".toList : string_type) ≠ [] := by decide
    rw [e, words, words_from_append "HMSET".toList [] _ (by decide), List.nil_append,
      words_from, if_pos rfl, if_neg h5, words_from, if_pos rfl, if_pos rfl,
      words_from_append key [] _ (hsp key hk).2, List.nil_append,
      words_from_args _ key hk.1 (fun w hw => hsp w (hplain w hw))]

/-! ## Lemmas: the argument loop of the hmset UDF -/

theorem even_split : ∀ (as : List string_type), as.length % 2 = 0 →
    ∃ fs vs : string_vector, fs.length = vs.length ∧ interleave fs vs = as
  | [], _ => ⟨[], [], rfl, rfl⟩
  | [_], h => by simp at h
  | a :: b :: t, h => by
    obtain ⟨fs, vs, h1, h2⟩ := even_split t (by simp only [List.length_cons] at h; omega)
    exact ⟨a :: fs, b :: vs, by simp [h1], by simp [interleave, h2]⟩

theorem mem_interleave_of_mem (w : string_type) : ∀ (fs vs : string_vector),
    fs.length = vs.length → (w ∈ fs ∨ w ∈ vs) → w ∈ interleave fs vs
  | [], [], _, h => by simp at h
  | [], _ :: _, hl, _ => by simp at hl
  | _ :: _, [], hl, _ => by simp at hl
  | f :: fs, v :: vs, hl, h => by
    have hl2 : fs.length = vs.length := by simpa using hl
    simp only [interleave, List.mem_cons] at h ⊢
    rcases h with (h | h) | (h | h)
    · exact Or.inl h
    · exact Or.inr (Or.inr (mem_interleave_of_mem w fs vs hl2 (Or.inl h)))
    · exact Or.inr (Or.inl h)
    · exact Or.inr (Or.inr (mem_interleave_of_mem w fs vs hl2 (Or.inr h)))

/-- The loop of the UDF sends the arguments alternately to `fields` and `values`,
starting with `fields` at the odd index 1. -/
theorem udf_hmset_loop_spec : ∀ (fs vs : string_vector) (pre : List string_type)
    (F V : string_vector), fs.length = vs.length → pre.length % 2 = 1 →
    udf_hmset_loop (pre ++ interleave fs vs) (interleave fs vs).length pre.length F V
      = (F ++ fs, V ++ vs)
  | [], [], pre, F, V, _, _ => by simp [interleave, udf_hmset_loop]
  | [], _ :: _, _, _, _, hl, _ => by simp at hl
  | _ :: _, [], _, _, _, hl, _ => by simp at hl
  | f :: fs, v :: vs, pre, F, V, hl, hodd => by
    have hl2 : fs.length = vs.length := by simpa using hl
    have ih := udf_hmset_loop_spec fs vs (pre ++ [f, v]) (F ++ [f]) (V ++ [v]) hl2
      (by simp only [List.length_append, List.length_cons, List.length_nil]; omega)
    have h1 : ¬ (pre.length % 2 = 0) := by omega
    have h2 : (pre.length + 1) % 2 = 0 := by omega
    have hf : (pre ++ f :: v :: interleave fs vs).getD pre.length [] = f :=
      getD_length_append [] f _ pre
    have hv : (pre ++ f :: v :: interleave fs vs).getD (pre.length + 1) [] = v := by
      have e : pre ++ f :: v :: interleave fs vs = (pre ++ [f]) ++ v :: interleave fs vs := by
        simp
      have e2 : pre.length + 1 = (pre ++ [f]).length := by simp
      rw [e, e2]
      exact getD_length_append [] v _ (pre ++ [f])
    have e3 : pre ++ f :: v :: interleave fs vs = (pre ++ [f, v]) ++ interleave fs vs := by simp
    have e4 : pre.length + 1 + 1 = (pre ++ [f, v]).length := by simp
    simp only [interleave, List.length_cons]
    rw [udf_hmset_loop, if_neg h1, udf_hmset_loop, if_pos h2, hf, hv, e3, e4, ih]
    simp

theorem udf_hmset_socket (s : Socket) (args : List string_type) :
    (udf_hmset s args).1
      = (hmset s (args.getD 0 []) (udf_hmset_loop args (args.length - 1) 1 [] []).1
          (udf_hmset_loop args (args.length - 1) 1 [] []).2).1 := by
  unfold udf_hmset
  simp only []
  generalize hmset s (args.getD 0 []) (udf_hmset_loop args (args.length - 1) 1 [] []).1
    (udf_hmset_loop args (args.length - 1) 1 [] []).2 = r
  obtain ⟨s1, o⟩ := r
  cases o <;> rfl

/-! ## The request of hmset (C18, C19) -/

/-- C18: for a key and equal-length non-empty sequences `fields`, `values`, all of
them non-empty strings without white space, `hmset` writes one request line that
ends with CRLF and whose space-separated words are, in order, `HMSET`, the key,
`f1`, `v1`, ..., `fn`, `vn`. -/
theorem hmset_interleaves_fields_and_values (s : Socket) (key : string_type)
    (fields values : string_vector) (hw : s.write_error = none)
    (hlen : fields.length = values.length) (hne : fields ≠ [])
    (hk : plain_word key) (hf : ∀ f ∈ fields, plain_word f) (hv : ∀ v ∈ values, plain_word v) :
    ∃ line, (hmset s key fields values).1.written = s.written ++ line ++ "\r\n".toList ∧
      '\n' ∉ line ∧ '\r' ∉ line ∧
      words line = "HMSET".toList :: key :: interleave fields values :=
  hmset_request_spec s key fields values hw hlen hne hk hf hv

/-- C18 witness: `hmset("k", {f1, f2}, {v1, v2})` writes `HMSET  k f1 v1 f2 v2` and CRLF. -/
theorem hmset_interleaves_fields_and_values_witness :
    ∃ line,
      (hmset ⟨"+OK\r\n".toList, 0, [], [], none⟩ "k".toList ["f1".toList, "f2".toList]
          ["v1".toList, "v2".toList]).1.written = [] ++ line ++ "\r\n".toList ∧
      '\n' ∉ line ∧ '\r' ∉ line ∧
      words line = "HMSET".toList :: "k".toList
        :: interleave ["f1".toList, "f2".toList] ["v1".toList, "v2".toList] :=
  hmset_interleaves_fields_and_values ⟨"+OK\r\n".toList, 0, [], [], none⟩ "k".toList
    ["f1".toList, "f2".toList] ["v1".toList, "v2".toList] rfl rfl (by decide)
    (by unfold plain_word; decide) (by unfold plain_word; decide) (by unfold plain_word; decide)

/-- C19: for a call `hmset(key, a1, ..., am)` of the UDF with `m` even, `m >= 2` and
all arguments non-empty and without white space, the UDF puts `a1, a3, ...` into
`fields` and `a2, a4, ...` into `values`, and the words of the request line that
`RedisClient::hmset` then writes are `HMSET`, the key, `a1`, `a2`, ..., `am` in
the original order. -/
theorem udf_hmset_preserves_argument_order (s : Socket) (key : string_type)
    (as : List string_type) (hw : s.write_error = none)
    (heven : as.length % 2 = 0) (hm : 2 ≤ as.length)
    (hk : plain_word key) (ha : ∀ a ∈ as, plain_word a) :
    ∃ fields values line,
      udf_hmset_loop (key :: as) as.length 1 [] [] = (fields, values) ∧
      fields.length = values.length ∧ interleave fields values = as ∧
      (udf_hmset s (key :: as)).1.written = s.written ++ line ++ "\r\n".toList ∧
      words line = "HMSET".toList :: key :: as := by
  obtain ⟨fs, vs, hlen, hint⟩ := even_split as heven
  have hloop := udf_hmset_loop_spec fs vs [key] [] [] hlen rfl
  rw [hint] at hloop
  simp only [List.singleton_append, List.length_singleton, List.nil_append] at hloop
  have hne : fs ≠ [] := by
    intro h0
    rw [h0] at hint
    simp only [interleave] at hint
    rw [← hint] at hm
    simp at hm
  obtain ⟨line, h1, _, _, h4⟩ := hmset_request_spec s key fs vs hw hlen hne hk
    (fun f hf => ha f (by rw [← hint]; exact mem_interleave_of_mem f fs vs hlen (Or.inl hf)))
    (fun v hv => ha v (by rw [← hint]; exact mem_interleave_of_mem v fs vs hlen (Or.inr hv)))
  refine ⟨fs, vs, line, hloop, hlen, hint, ?_, ?_⟩
  · rw [udf_hmset_socket]
    simp only [List.length_cons, Nat.add_sub_cancel, hloop, List.getD_cons_zero]
    exact h1
  · rw [h4, hint]

/-- C19 witness: the call `hmset('k', 'a1', 'a2', 'a3', 'a4')`. -/
theorem udf_hmset_preserves_argument_order_witness :
    ∃ fields values line,
      udf_hmset_loop ["k".toList, "a1".toList, "a2".toList, "a3".toList, "a4".toList]
        4 1 [] [] = (fields, values) ∧
      fields.length = values.length ∧
      interleave fields values = ["a1".toList, "a2".toList, "a3".toList, "a4".toList] ∧
      (udf_hmset ⟨"+OK\r\n".toList, 0, [], [], none⟩
        ["k".toList, "a1".toList, "a2".toList, "a3".toList, "a4".toList]).1.written
        = [] ++ line ++ "\r\n".toList ∧
      words line = "HMSET".toList :: "k".toList
        :: ["a1".toList, "a2".toList, "a3".toList, "a4".toList] :=
  udf_hmset_preserves_argument_order ⟨"+OK\r\n".toList, 0, [], [], none⟩ "k".toList
    ["a1".toList, "a2".toList, "a3".toList, "a4".toList] rfl (by decide) (by decide)
    (by unfold plain_word; decide) (by unfold plain_word; decide)

/-! ## The in-band sentinel (C20) -/

/-- The bulk decoder on the nil header. -/
theorem recv_bulk_reply_nil (alloc_limit : Nat) (s : Socket) (rest : string_type)
    (hs : s.pending = "$-1\r\n".toList ++ rest) :
    ∃ s1, recv_bulk_reply_ alloc_limit s = Outcome.ok (missing_value, s1) ∧ s1.pending = rest := by
  obtain ⟨s1, h1, h2, _⟩ := read_line_crlf s default_max_size (by decide) "$-1".toList rest
    (by rw [hs]; rfl) (by decide) (by decide)
  have hint := recv_bulk_reply_int_of_line s s1 "$-1".toList '$' (-1) h1 rfl (by decide)
  refine ⟨s1, ?_, h2⟩
  simp only [recv_bulk_reply_, prefix_single_bulk_reply, hint, if_true]

/-- The bulk decoder on a real value equal to the sentinel text. -/
theorem recv_bulk_reply_sentinel_text (alloc_limit : Nat) (s : Socket) (rest : string_type)
    (halloc : 22 ≤ alloc_limit)
    (hs : s.pending = "$19\r\n**nonexistent-key**\r\n".toList ++ rest) :
    ∃ s1, recv_bulk_reply_ alloc_limit s = Outcome.ok (missing_value, s1) ∧ s1.pending = rest := by
  have henc : "$19\r\n**nonexistent-key**\r\n".toList = bulk_encoding missing_value := by decide
  obtain ⟨s1, h1, h2, _⟩ := recv_bulk_reply_spec alloc_limit s missing_value rest
    (by rw [hs, henc]) (by decide) halloc (by decide)
  exact ⟨s1, h1, h2⟩

/-- C20: `get` returns the same string, `missing_value`, for the nil reply `$-1` and
for the well-formed bulk reply `$19` carrying the text `**nonexistent-key**`, and so
do `hget` and `getset`: the two replies cannot be told apart by the caller.  The
22-byte buffer `read_n` needs for the second reply is taken to be allocatable. -/
theorem missing_value_is_in_band (alloc_limit : Nat) (s t : Socket)
    (key field value rest : string_type) (halloc : 22 ≤ alloc_limit)
    (hsw : s.write_error = none) (htw : t.write_error = none)
    (hs : s.pending = "$-1\r\n".toList ++ rest)
    (ht : t.pending = "$19\r\n**nonexistent-key**\r\n".toList ++ rest) :
    (∃ s1 t1, get alloc_limit s key = Outcome.ok (missing_value, s1) ∧
        get alloc_limit t key = Outcome.ok (missing_value, t1) ∧ s1.pending = rest ∧ t1.pending = rest) ∧
    (∃ s1 t1, hget alloc_limit s key field = Outcome.ok (missing_value, s1) ∧
        hget alloc_limit t key field = Outcome.ok (missing_value, t1) ∧
        s1.pending = rest ∧ t1.pending = rest) ∧
    (∃ s1 t1, getset alloc_limit s key value = Outcome.ok (missing_value, s1) ∧
        getset alloc_limit t key value = Outcome.ok (missing_value, t1) ∧
        s1.pending = rest ∧ t1.pending = rest) := by
  have both : ∀ msg : string_type,
      ∃ s1 t1, recv_bulk_reply_ alloc_limit { s with written := s.written ++ msg }
          = Outcome.ok (missing_value, s1) ∧
        recv_bulk_reply_ alloc_limit { t with written := t.written ++ msg }
          = Outcome.ok (missing_value, t1) ∧ s1.pending = rest ∧ t1.pending = rest := by
    intro msg
    obtain ⟨s1, h1, h2⟩ := recv_bulk_reply_nil alloc_limit { s with written := s.written ++ msg } rest hs
    obtain ⟨t1, k1, k2⟩ :=
      recv_bulk_reply_sentinel_text alloc_limit { t with written := t.written ++ msg } rest
        halloc ht
    exact ⟨s1, t1, h1, k1, h2, k2⟩
  refine ⟨?_, ?_, ?_⟩
  · simp only [get, send_ok s _ hsw, send_ok t _ htw]; exact both _
  · simp only [hget, send_ok s _ hsw, send_ok t _ htw]; exact both _
  · simp only [getset, send_ok s _ hsw, send_ok t _ htw]; exact both _

/-- C20 witness: the two replies, each followed by the next reply of the server. -/
theorem missing_value_is_in_band_witness :
    ∃ s1 t1,
      get 4096 ⟨"$-1\r\n+OK\r\n".toList, 0, [], [], none⟩ "k".toList
        = Outcome.ok ("**nonexistent-key**".toList, s1) ∧
      get 4096 ⟨"$19\r\n**nonexistent-key**\r\n+OK\r\n".toList, 0, [], [], none⟩ "k".toList
        = Outcome.ok ("**nonexistent-key**".toList, t1) ∧
      s1.pending = "+OK\r\n".toList ∧ t1.pending = "+OK\r\n".toList :=
  (missing_value_is_in_band 4096 ⟨"$-1\r\n+OK\r\n".toList, 0, [], [], none⟩
    ⟨"$19\r\n**nonexistent-key**\r\n+OK\r\n".toList, 0, [], [], none⟩
    "k".toList "f".toList "v".toList "+OK\r\n".toList (by decide) rfl rfl (by decide)
    (by decide)).1

/-! ## Error replies to the commands that do not expect a status (C21) -/

theorem rtrim_head (ws str : string_type) (c : Char) (hc : c ∉ ws)
    (hh : str.head? = some c) : (rtrim str ws).head? = some c := by
  rcases trailing_split ws str with h | ⟨a, x, t, h, hx, ht⟩
  · exfalso
    cases str with
    | nil => simp at hh
    | cons b l =>
      simp only [List.head?_cons, Option.some.injEq] at hh
      exact hc (hh ▸ h b (List.mem_cons_self _ _))
  · rw [h, rtrim_append ws a x t hx ht]
    rw [h] at hh
    cases a with
    | nil => simpa using hh
    | cons b l => simpa using hh

/-- The line read from a stream starts with the first character of the stream,
when that character is neither CR nor LF and a newline follows. -/
theorem read_line_head (s : Socket) (c : Char) (tail : string_type)
    (hs : s.pending = c :: tail) (hc : c ≠ '\n' ∧ c ≠ '\r') (hnl : '\n' ∈ tail) :
    ∃ line s1, read_line s default_max_size = Outcome.ok (line, s1) ∧
      line.head? = some c := by
  obtain ⟨p, rest, hsplit, hp⟩ := List.eq_append_cons_of_mem hnl
  have hs2 : s.pending = (c :: p) ++ '\n' :: rest := by rw [hs, hsplit]; simp
  have hp2 : '\n' ∉ c :: p := by
    intro h
    rcases List.mem_cons.1 h with h | h
    · exact hc.1 h.symm
    · exact hp h
  obtain ⟨s1, h1, _⟩ := read_line_spec s default_max_size (by decide) (c :: p) rest hs2 hp2
  refine ⟨rtrim (c :: p) CRLF, s1, h1, ?_⟩
  apply rtrim_head
  · intro h
    simp only [CRLF, List.mem_cons, List.mem_singleton, List.not_mem_nil, or_false] at h
    rcases h with h | h
    · exact hc.2 h
    · exact hc.1 h
  · rfl

/-- The integer decoder on a reply line that starts with another character than
the expected prefix. -/
theorem recv_bulk_reply_int_other_head (s : Socket) (c pfx : Char) (tail : string_type)
    (hs : s.pending = c :: tail) (hc : c ≠ '\n' ∧ c ≠ '\r') (hnl : '\n' ∈ tail)
    (hne : c ≠ pfx) :
    recv_bulk_reply_int s pfx
      = Outcome.raise (redis_error.protocol_error "unexpected prefix for bulk reply".toList) := by
  obtain ⟨line, s1, h1, hhead⟩ := read_line_head s c tail hs hc hnl
  have hfront : front line ≠ pfx := by
    cases line with
    | nil => simp at hhead
    | cons a l =>
      simp only [List.head?_cons, Option.some.injEq] at hhead
      simpa [front, hhead] using hne
  simp only [recv_bulk_reply_int, h1, if_pos hfront]

/-- C21: for every message `m`, when the reply line to `get`, `hget`, `getset`,
`hset`, `del` or `hmget` is `-ERR ` + m + CRLF, the operation throws
`protocol_error("unexpected prefix for bulk reply")`, whatever `m` is; `hmget`
leaves its output vector as it was. -/
theorem error_reply_loses_its_message (alloc_limit : Nat) (s : Socket) (m rest key field value : string_type)
    (fields out : string_vector) (hw : s.write_error = none)
    (hs : s.pending = "-ERR ".toList ++ m ++ "\r\n".toList ++ rest) :
    get alloc_limit s key
      = Outcome.raise (redis_error.protocol_error "unexpected prefix for bulk reply".toList) ∧
    hget alloc_limit s key field
      = Outcome.raise (redis_error.protocol_error "unexpected prefix for bulk reply".toList) ∧
    getset alloc_limit s key value
      = Outcome.raise (redis_error.protocol_error "unexpected prefix for bulk reply".toList) ∧
    hset s key field value
      = Outcome.raise (redis_error.protocol_error "unexpected prefix for bulk reply".toList) ∧
    del s key
      = Outcome.raise (redis_error.protocol_error "unexpected prefix for bulk reply".toList) ∧
    hmget alloc_limit s key fields out
      = (out, Outcome.raise
          (redis_error.protocol_error "unexpected prefix for bulk reply".toList)) := by
  have hs2 : s.pending = '-' :: ("ERR ".toList ++ m ++ "\r\n".toList ++ rest) := by
    rw [hs]; rfl
  have hnl : '\n' ∈ "ERR ".toList ++ m ++ "\r\n".toList ++ rest := by simp
  have key : ∀ (msg : string_type) (pfx : Char), '-' ≠ pfx →
      recv_bulk_reply_int { s with written := s.written ++ msg } pfx
        = Outcome.raise
            (redis_error.protocol_error "unexpected prefix for bulk reply".toList) :=
    fun msg pfx hne =>
      recv_bulk_reply_int_other_head { s with written := s.written ++ msg } '-' pfx _ hs2
        (by decide) hnl hne
  refine ⟨?_, ?_, ?_, ?_, ?_, ?_⟩
  · simp only [get, send_ok s _ hw, recv_bulk_reply_, prefix_single_bulk_reply,
      key _ '$' (by decide)]
  · simp only [hget, send_ok s _ hw, recv_bulk_reply_, prefix_single_bulk_reply,
      key _ '$' (by decide)]
  · simp only [getset, send_ok s _ hw, recv_bulk_reply_, prefix_single_bulk_reply,
      key _ '$' (by decide)]
  · simp only [hset, send_ok s _ hw, prefix_int_reply, key _ ':' (by decide)]
  · simp only [del, send_ok s _ hw, prefix_int_reply, key _ ':' (by decide)]
  · simp only [hmget, send_ok s _ hw, recv_multi_bulk_reply_, prefix_multi_bulk_reply,
      key _ '*' (by decide)]

/-- C21 witness: the reply `-ERR wrong kind of value` to `hset` and to `hmget`. -/
theorem error_reply_loses_its_message_witness :
    hset ⟨"-ERR wrong kind of value\r\n".toList, 0, [4, 4], [], none⟩
        "k".toList "f".toList "v".toList
      = Outcome.raise (redis_error.protocol_error "unexpected prefix for bulk reply".toList) ∧
    hmget 4096 ⟨"-ERR wrong kind of value\r\n".toList, 0, [4, 4], [], none⟩
        "k".toList ["f".toList] ["old".toList]
      = (["old".toList], Outcome.raise
          (redis_error.protocol_error "unexpected prefix for bulk reply".toList)) :=
  ⟨(error_reply_loses_its_message 4096 ⟨"-ERR wrong kind of value\r\n".toList, 0, [4, 4], [], none⟩
      "wrong kind of value".toList [] "k".toList "f".toList "v".toList ["f".toList]
      ["old".toList] rfl (by decide)).2.2.2.1,
   (error_reply_loses_its_message 4096 ⟨"-ERR wrong kind of value\r\n".toList, 0, [4, 4], [], none⟩
      "wrong kind of value".toList [] "k".toList "f".toList "v".toList ["f".toList]
      ["old".toList] rfl (by decide)).2.2.2.2.2⟩

/-! ## The output vector of hmget (C22) -/

/-- The loop of the multi-bulk decoder, run over elements that decode, pushes
them onto `out` and goes on from the socket they leave. -/
theorem recv_multi_bulk_loop_decodes (alloc_limit : Nat) : ∀ (ps : string_vector) (s1 s2 : Socket)
    (o : string_vector) (k : Nat), decodes alloc_limit s1 ps s2 →
    recv_multi_bulk_loop alloc_limit (ps.length + k) s1 o = recv_multi_bulk_loop alloc_limit k s2 (o ++ ps)
  | [], s1, s2, o, k, h => by
    simp only [decodes] at h
    simp [h]
  | p :: ps, s1, s2, o, k, h => by
    obtain ⟨s3, h1, h2⟩ := h
    have ih := recv_multi_bulk_loop_decodes alloc_limit ps s3 s2 (o ++ [p]) k h2
    have e : (p :: ps).length + k = (ps.length + k) + 1 := by
      simp only [List.length_cons]; omega
    rw [e, recv_multi_bulk_loop, h1]
    simp only []
    rw [ih, List.append_assoc, List.singleton_append]

/-- C22: `hmget` appends to `out` and is not atomic.  For every initial content `o`
and every reply stream whose header announces `n` elements: when the bulk decoder
returns `n` elements `ps`, `out` ends as `o ++ ps`; when it returns the `j < n`
elements `ps` and throws on the next one, `out` ends as `o ++ ps` as well and
the exception is passed on. -/
theorem hmget_appends_to_out (alloc_limit : Nat) (s sreq s1 s2 : Socket) (key : string_type)
    (fields o ps : string_vector) (n : Int)
    (hsend : send_ s (makecmd.str
        (makecmd.put_vector (makecmd.put (makecmd "HMGET".toList false) key) fields))
      = Outcome.ok sreq)
    (hhead : recv_bulk_reply_int sreq '*' = Outcome.ok (n, s1)) (hn : n ≠ -1)
    (hdec : decodes alloc_limit s1 ps s2) :
    (ps.length = n.toNat →
      recv_multi_bulk_reply_ alloc_limit sreq o = (o ++ ps, Outcome.ok (n, s2)) ∧
      hmget alloc_limit s key fields o = (o ++ ps, Outcome.ok s2)) ∧
    (∀ e, ps.length < n.toNat → recv_bulk_reply_ alloc_limit s2 = Outcome.raise e →
      recv_multi_bulk_reply_ alloc_limit sreq o = (o ++ ps, Outcome.raise e) ∧
      hmget alloc_limit s key fields o = (o ++ ps, Outcome.raise e)) := by
  constructor
  · intro hlen
    have hloop : recv_multi_bulk_loop alloc_limit n.toNat s1 o = (o ++ ps, Outcome.ok s2) := by
      have := recv_multi_bulk_loop_decodes alloc_limit ps s1 s2 o 0 hdec
      rw [Nat.add_zero, hlen] at this
      rw [this, recv_multi_bulk_loop]
    have hreply : recv_multi_bulk_reply_ alloc_limit sreq o = (o ++ ps, Outcome.ok (n, s2)) := by
      simp only [recv_multi_bulk_reply_, prefix_multi_bulk_reply, hhead, if_neg hn, hloop]
    exact ⟨hreply, by simp only [hmget, hsend, hreply]⟩
  · intro e hlt hraise
    obtain ⟨k, hk⟩ : ∃ k, n.toNat = ps.length + (k + 1) := ⟨n.toNat - ps.length - 1, by omega⟩
    have hloop : recv_multi_bulk_loop alloc_limit n.toNat s1 o = (o ++ ps, Outcome.raise e) := by
      rw [hk, recv_multi_bulk_loop_decodes alloc_limit ps s1 s2 o (k + 1) hdec, recv_multi_bulk_loop, hraise]
    have hreply : recv_multi_bulk_reply_ alloc_limit sreq o = (o ++ ps, Outcome.raise e) := by
      simp only [recv_multi_bulk_reply_, prefix_multi_bulk_reply, hhead, if_neg hn, hloop]
    exact ⟨hreply, by simp only [hmget, hsend, hreply]⟩

/-- C22 witness: `out` holds `x`; the reply announces three elements, gives `a` and
`b` and then a line that is no bulk header.  `out` ends as `x`, `a`, `b`. -/
theorem hmget_appends_to_out_witness :
    recv_multi_bulk_reply_ 4096
        ⟨"*3\r\n$1\r\na\r\n$1\r\nb\r\noops\r\n".toList, 0, [], "HMGET  k f1 f2 f3\r\n".toList, none⟩
        ["x".toList]
      = (["x".toList] ++ ["a".toList, "b".toList], Outcome.raise
          (redis_error.protocol_error "unexpected prefix for bulk reply".toList)) ∧
    hmget 4096 ⟨"*3\r\n$1\r\na\r\n$1\r\nb\r\noops\r\n".toList, 0, [], [], none⟩ "k".toList
        ["f1".toList, "f2".toList, "f3".toList] ["x".toList]
      = (["x".toList] ++ ["a".toList, "b".toList], Outcome.raise
          (redis_error.protocol_error "unexpected prefix for bulk reply".toList)) :=
  (hmget_appends_to_out 4096
    ⟨"*3\r\n$1\r\na\r\n$1\r\nb\r\noops\r\n".toList, 0, [], [], none⟩
    ⟨"*3\r\n$1\r\na\r\n$1\r\nb\r\noops\r\n".toList, 0, [], "HMGET  k f1 f2 f3\r\n".toList, none⟩
    ⟨"$1\r\na\r\n$1\r\nb\r\noops\r\n".toList, 20, [], "HMGET  k f1 f2 f3\r\n".toList, none⟩
    ⟨"oops\r\n".toList, 6, [], "HMGET  k f1 f2 f3\r\n".toList, none⟩
    "k".toList ["f1".toList, "f2".toList, "f3".toList] ["x".toList]
    ["a".toList, "b".toList] 3 (by decide) (by decide) (by decide)
    ⟨⟨"$1\r\nb\r\noops\r\n".toList, 13, [], "HMGET  k f1 f2 f3\r\n".toList, none⟩, by decide,
      ⟨⟨"oops\r\n".toList, 6, [], "HMGET  k f1 f2 f3\r\n".toList, none⟩, by decide, rfl⟩⟩).2
    (redis_error.protocol_error "unexpected prefix for bulk reply".toList) (by decide) (by decide)

end RedisUdf
